import Mathlib

/-!
Shallow embedding of the hand-tracking core of
src/detection_service/detector.py (the `HandTracker` class and its
geometry helpers), together with theorems checking the natural-language
specification of the repository against this embedding.

Python floats are modelled as exact rationals (ℚ); Python integer
floor division is `Int.fdiv`; Python dicts keyed by hand id are
association lists in insertion order (Python dicts preserve insertion
order, assignment to an existing key keeps its position, new keys are
appended at the end).
-/

attribute [local semireducible] Rat.mul Rat.inv Rat.add Rat.sub

/-- Configuration constant IOU_THRESHOLD = 0.2 of detector.py. -/
def IOU_THRESHOLD : ℚ := 1/5

/-- Configuration constant HAND_TIMEOUT_FRAMES = 60 of detector.py. -/
def HAND_TIMEOUT_FRAMES : Nat := 60

/-- Configuration constant SCOOPER_MEMORY_FRAMES = 15 of detector.py. -/
def SCOOPER_MEMORY_FRAMES : Nat := 15

/-- Configuration constant VIOLATION_DELAY_FRAMES = 10 of detector.py. -/
def VIOLATION_DELAY_FRAMES : Nat := 10

/-- An axis-aligned box (x1, y1, x2, y2), as produced by the detector. -/
structure Box where
  x1 : Int
  y1 : Int
  x2 : Int
  y2 : Int
  deriving DecidableEq

/-- box_iou of detector.py: intersection area over union area, 0 when
the union area is not positive. -/
def box_iou (box1 box2 : Box) : ℚ :=
  let xi1 := max box1.x1 box2.x1
  let yi1 := max box1.y1 box2.y1
  let xi2 := min box1.x2 box2.x2
  let yi2 := min box1.y2 box2.y2
  let inter_area : Int := max 0 (xi2 - xi1) * max 0 (yi2 - yi1)
  let box1_area : Int := (box1.x2 - box1.x1) * (box1.y2 - box1.y1)
  let box2_area : Int := (box2.x2 - box2.x1) * (box2.y2 - box2.y1)
  let union_area : Int := box1_area + box2_area - inter_area
  if union_area > 0 then (inter_area : ℚ) / (union_area : ℚ) else 0

/-- box_center of detector.py; Python // is floor division, hence Int.fdiv. -/
def box_center (box : Box) : Int × Int :=
  ((box.x1 + box.x2).fdiv 2, (box.y1 + box.y2).fdiv 2)

/-- A named region of interest, {name, x, y, w, h} in config.json. -/
structure Roi where
  name : String
  x : Int
  y : Int
  w : Int
  h : Int
  deriving DecidableEq

/-- is_in_roi of detector.py: the box center lies in the region rectangle,
inclusive bounds. -/
def is_in_roi (box : Box) (roi : Roi) : Bool :=
  let c := box_center box
  decide (roi.x ≤ c.1 ∧ c.1 ≤ roi.x + roi.w ∧ roi.y ≤ c.2 ∧ c.2 ≤ roi.y + roi.h)

/-- is_near_pizza of detector.py: the hand box center lies in the pizza box
expanded by margin times its width/height on each side (call sites use the
default margin 0.5). -/
def is_near_pizza (hand_box pizza_box : Box) (margin : ℚ) : Bool :=
  let c := box_center hand_box
  let pw := pizza_box.x2 - pizza_box.x1
  let ph := pizza_box.y2 - pizza_box.y1
  let exp_x1 : ℚ := (pizza_box.x1 : ℚ) - (pw : ℚ) * margin
  let exp_y1 : ℚ := (pizza_box.y1 : ℚ) - (ph : ℚ) * margin
  let exp_x2 : ℚ := (pizza_box.x2 : ℚ) + (pw : ℚ) * margin
  let exp_y2 : ℚ := (pizza_box.y2 : ℚ) + (ph : ℚ) * margin
  decide (exp_x1 ≤ (c.1 : ℚ) ∧ (c.1 : ℚ) ≤ exp_x2 ∧
          exp_y1 ≤ (c.2 : ℚ) ∧ (c.2 : ℚ) ≤ exp_y2)

/-- is_scooper_at_pizza of detector.py: some scooper box center lies in the
pizza box expanded by margin (call sites use the default margin 0.4). -/
def is_scooper_at_pizza (scooper_boxes : List Box) (pizza_box : Box)
    (margin : ℚ) : Bool :=
  scooper_boxes.any fun s_box =>
    let c := box_center s_box
    let pw := pizza_box.x2 - pizza_box.x1
    let ph := pizza_box.y2 - pizza_box.y1
    let exp_x1 : ℚ := (pizza_box.x1 : ℚ) - (pw : ℚ) * margin
    let exp_y1 : ℚ := (pizza_box.y1 : ℚ) - (ph : ℚ) * margin
    let exp_x2 : ℚ := (pizza_box.x2 : ℚ) + (pw : ℚ) * margin
    let exp_y2 : ℚ := (pizza_box.y2 : ℚ) + (ph : ℚ) * margin
    decide (exp_x1 ≤ (c.1 : ℚ) ∧ (c.1 : ℚ) ≤ exp_x2 ∧
            exp_y1 ≤ (c.2 : ℚ) ∧ (c.2 : ℚ) ≤ exp_y2)

/-- The per-hand record stored in HandTracker.hands (detector.py): box,
state string, frames_since_update counter, roi_name. States used by the
code: "in_roi", "tracking_to_pizza", "waiting_at_pizza", "done". -/
structure HandData where
  box : Box
  state : String
  frames_since_update : Nat
  roi_name : String
  deriving DecidableEq

/-- The record stored in HandTracker.pending_violations (detector.py). -/
structure Pending where
  frame : Nat
  pizza_box : Box
  roi_name : String
  delay_counter : Nat
  deriving DecidableEq

/-- A violation record appended to HandTracker.violations (detector.py). -/
structure Violation where
  frame : Nat
  hand_id : Nat
  roi_name : String
  deriving DecidableEq

/-- The mutable state of a HandTracker instance (detector.py __init__). -/
structure TrackerState where
  next_id : Nat
  hands : List (Nat × HandData)
  violations : List Violation
  rois : List Roi
  scooper_history : List (List Box)
  pending_violations : List (Nat × Pending)
  deriving DecidableEq

namespace HandTracker

/-- HandTracker.__init__ of detector.py. -/
def init (rois : List Roi) : TrackerState :=
  { next_id := 0, hands := [], violations := [], rois := rois,
    scooper_history := [], pending_violations := [] }

/-- Python dict assignment d[k] = v on an insertion-ordered dict:
replace in place when the key exists, else append at the end. -/
def dictInsert (l : List (Nat × Pending)) (k : Nat) (v : Pending) :
    List (Nat × Pending) :=
  if l.any (fun p => p.1 == k) then
    l.map (fun p => if p.1 == k then (p.1, v) else p)
  else l ++ [(k, v)]

/-- The first region (in list order) containing the box center, as the
roi scan loops of HandTracker.update do. -/
def findRoi (rois : List Roi) (box : Box) : Option Roi :=
  rois.find? (fun roi => is_in_roi box roi)

/-- The inner matching scan of HandTracker.update: the first live hand,
in dict insertion order, not yet matched this frame, whose stored box has
box_iou with the incoming box above IOU_THRESHOLD. -/
def findMatch (hands : List (Nat × HandData)) (matched : List Nat)
    (hand_box : Box) : Option (Nat × HandData) :=
  hands.find? (fun p => !(matched.contains p.1) &&
    decide (box_iou hand_box p.2.box > IOU_THRESHOLD))

/-- The state-machine step HandTracker.update applies to a matched hand:
store the new box, reset frames_since_update, then branch on region
membership and pizza proximity exactly as the nested conditionals do
(opening or overwriting a pending violation in the tracking_to_pizza
branch). -/
def step_matched (rois : List Roi) (pizza_boxes : List Box) (frame_num : Nat)
    (hand_id : Nat) (hd0 : HandData) (hand_box : Box)
    (pendings : List (Nat × Pending)) : HandData × List (Nat × Pending) :=
  let old_state := hd0.state
  let hd := { hd0 with box := hand_box, frames_since_update := 0 }
  match findRoi rois hand_box with
  | some roi => ({ hd with state := "in_roi", roi_name := roi.name }, pendings)
  | none =>
    if old_state = "in_roi" then
      ({ hd with state := "tracking_to_pizza" }, pendings)
    else if hd.state = "tracking_to_pizza" then
      match pizza_boxes.find? (fun pb => is_near_pizza hand_box pb (1/2)) with
      | some pizza_box =>
        ({ hd with state := "waiting_at_pizza" },
         dictInsert pendings hand_id
           { frame := frame_num, pizza_box := pizza_box,
             roi_name := hd.roi_name, delay_counter := 0 })
      | none => (hd, pendings)
    else (hd, pendings)

/-- The matching loop of HandTracker.update over the incoming hand boxes:
each box either updates the first matching live hand (greedy first fit,
matched hands skipped) or is collected into new_hands. -/
def matchLoop (rois : List Roi) (pizza_boxes : List Box) (frame_num : Nat) :
    List Box → List (Nat × HandData) → List (Nat × Pending) → List Nat →
    List Box →
    List (Nat × HandData) × List (Nat × Pending) × List Nat × List Box
  | [], hands, pendings, matched, news => (hands, pendings, matched, news)
  | hand_box :: rest, hands, pendings, matched, news =>
    match findMatch hands matched hand_box with
    | some m =>
      let r := step_matched rois pizza_boxes frame_num m.1 m.2 hand_box pendings
      let hands2 := hands.map (fun p => if p.1 == m.1 then (p.1, r.1) else p)
      matchLoop rois pizza_boxes frame_num rest hands2 r.2
        (matched ++ [m.1]) news
    | none =>
      matchLoop rois pizza_boxes frame_num rest hands pendings matched
        (news ++ [hand_box])

/-- The add-new-hands loop of HandTracker.update: each unmatched incoming
box whose center lies in some region becomes a fresh hand in state
"in_roi" with id next_id, which is then incremented. -/
def addNewHands (rois : List Roi) :
    List Box → Nat → List (Nat × HandData) → Nat × List (Nat × HandData)
  | [], next_id, hands => (next_id, hands)
  | hand_box :: rest, next_id, hands =>
    match findRoi rois hand_box with
    | some roi =>
      addNewHands rois rest (next_id + 1)
        (hands ++ [(next_id, { box := hand_box, state := "in_roi",
                               frames_since_update := 0,
                               roi_name := roi.name })])
    | none => addNewHands rois rest next_id hands

/-- Setting a hand's state to "done" (self.hands[hand_id]["state"] = "done"
guarded by hand_id in self.hands). -/
def setDone (hands : List (Nat × HandData)) (hand_id : Nat) :
    List (Nat × HandData) :=
  hands.map (fun p => if p.1 == hand_id then (p.1, { p.2 with state := "done" })
                      else p)

/-- The pending-violation loop of HandTracker.update: increment each
delay_counter; on scooper evidence resolve (drop the pending, set the hand
to "done"); else on delay_counter ≥ VIOLATION_DELAY_FRAMES commit a
violation (drop the pending, set the hand to "done"); else keep the
pending. Returns (kept pendings, updated hands, new violations in loop
order). -/
def arbitrate (all_recent_scoopers : List Box) (frame_num : Nat) :
    List (Nat × Pending) → List (Nat × HandData) →
    List (Nat × Pending) × List (Nat × HandData) × List Violation
  | [], hands => ([], hands, [])
  | (hand_id, pending0) :: rest, hands =>
    let pending := { pending0 with delay_counter := pending0.delay_counter + 1 }
    if is_scooper_at_pizza all_recent_scoopers pending.pizza_box (2/5) then
      arbitrate all_recent_scoopers frame_num rest (setDone hands hand_id)
    else if pending.delay_counter ≥ VIOLATION_DELAY_FRAMES then
      let r := arbitrate all_recent_scoopers frame_num rest
        (setDone hands hand_id)
      (r.1, r.2.1,
       { frame := frame_num, hand_id := hand_id,
         roi_name := pending.roi_name } :: r.2.2)
    else
      let r := arbitrate all_recent_scoopers frame_num rest hands
      ((hand_id, pending) :: r.1, r.2.1, r.2.2)

/-- The per-hand timeout of the lost-hands loop: 60 frames, doubled to 120
when the state is "tracking_to_pizza" or "waiting_at_pizza". -/
def hand_timeout (hd : HandData) : Nat :=
  if hd.state = "tracking_to_pizza" ∨ hd.state = "waiting_at_pizza" then
    HAND_TIMEOUT_FRAMES * 2
  else HAND_TIMEOUT_FRAMES

/-- The per-hand counter update of the lost-hands loop: a hand not
matched this frame has frames_since_update incremented, a matched hand is
left as is. -/
def bumpUnmatched (matched : List Nat) (p : Nat × HandData) :
    Nat × HandData :=
  if matched.contains p.1 then p
  else (p.1, { p.2 with frames_since_update := p.2.frames_since_update + 1 })

/-- The timeout test of the lost-hands loop, applied after the counter
update: an unmatched hand whose counter exceeds its timeout is lost. -/
def lostPred (matched : List Nat) (p : Nat × HandData) : Bool :=
  !(matched.contains p.1) &&
    decide (p.2.frames_since_update > hand_timeout p.2)

/-- The ids collected into lost_hands by the lost-hands loop. -/
def lostOf (matched : List Nat) (hands : List (Nat × HandData)) : List Nat :=
  ((hands.map (bumpUnmatched matched)).filter (lostPred matched)).map Prod.fst

/-- The lost-hands loop of HandTracker.update: every hand not matched this
frame has frames_since_update incremented; those whose counter then
exceeds their timeout are removed, together with any pending violation
keyed to them. -/
def evict (matched : List Nat) (hands : List (Nat × HandData))
    (pendings : List (Nat × Pending)) :
    List (Nat × HandData) × List (Nat × Pending) :=
  ((hands.map (bumpUnmatched matched)).filter
      (fun p => !((lostOf matched hands).contains p.1)),
   pendings.filter (fun p => !((lostOf matched hands).contains p.1)))

/-- The scooper history after this frame: append, then pop the oldest when
the length exceeds SCOOPER_MEMORY_FRAMES. -/
def historyAfter (s : TrackerState) (scooper_boxes : List Box) :
    List (List Box) :=
  let history := s.scooper_history ++ [scooper_boxes]
  if history.length > SCOOPER_MEMORY_FRAMES then history.drop 1 else history

/-- all_recent_scoopers of HandTracker.update: the truncated history,
flattened in order. -/
def recentScoopers (s : TrackerState) (scooper_boxes : List Box) :
    List Box :=
  (historyAfter s scooper_boxes).flatten

/-- The matching phase of HandTracker.update applied to a tracker state:
returns (hands, pendings, matched ids, unmatched new boxes). -/
def postMatch (s : TrackerState) (hand_boxes pizza_boxes : List Box)
    (frame_num : Nat) :
    List (Nat × HandData) × List (Nat × Pending) × List Nat × List Box :=
  matchLoop s.rois pizza_boxes frame_num hand_boxes s.hands
    s.pending_violations [] []

/-- HandTracker.update of detector.py: scooper history update, greedy
matching, new-hand creation, pending-violation arbitration, lost-hand
eviction; returns the new state and the list of violations committed this
frame. -/
def update (s : TrackerState) (hand_boxes scooper_boxes pizza_boxes : List Box)
    (frame_num : Nat) : TrackerState × List Violation :=
  let m := postMatch s hand_boxes pizza_boxes frame_num
  let n := addNewHands s.rois m.2.2.2 s.next_id m.1
  let a := arbitrate (recentScoopers s scooper_boxes) frame_num m.2.1 n.2
  let e := evict m.2.2.1 a.2.1 a.1
  ({ s with
     next_id := n.1
     hands := e.1
     violations := s.violations ++ a.2.2
     scooper_history := historyAfter s scooper_boxes
     pending_violations := e.2 },
   a.2.2)

/-- The key list of an association list (the dict's keys, in order). -/
def keysOf {α : Type} (l : List (Nat × α)) : List Nat := l.map Prod.fst

/-- HandTracker.get_violation_count of detector.py. -/
def get_violation_count (s : TrackerState) : Nat :=
  s.violations.length

end HandTracker

/-! ## Concrete scenario material

A single region "Cheese" (the fallback region of detector.py), one hand
tracked through the lifecycle, concrete boxes chosen so that every
geometric test is exercised: hb10 has its center (460, 350) inside the
Cheese region, hb11 has its center (460, 299) outside it, box_iou hb10
hb11 = 8/25 > 1/5, and hb11 is near pizza1 with margin 1/2. scoop1 is a
scooper box whose center lies within pizza1 expanded by margin 2/5. -/

def cheeseRoi : Roi := { name := "Cheese", x := 454, y := 350, w := 64, h := 37 }

def hb10 : Box := { x1 := 400, y1 := 300, x2 := 520, y2 := 400 }

def hb11 : Box := { x1 := 400, y1 := 250, x2 := 520, y2 := 348 }

def pizza1 : Box := { x1 := 400, y1 := 200, x2 := 500, y2 := 300 }

def scoop1 : Box := { x1 := 420, y1 := 220, x2 := 480, y2 := 280 }

/-- Run the tracker from a fresh instance with the single Cheese region
over frames 10, 11, ..., n, where f gives each frame's
(hand boxes, scooper boxes, pizza boxes); returns the state after frame n
together with the violations emitted by frame n's update. -/
def runScenario (f : Nat → List Box × List Box × List Box) (n : Nat) :
    TrackerState × List Violation :=
  (List.range' 10 (n - 9)).foldl
    (fun p k => HandTracker.update p.1 (f k).1 (f k).2.1 (f k).2.2 k)
    (HandTracker.init [cheeseRoi], [])

/-- Frames of the spec's violation scenario (claim C1): hand enters the
Cheese region at frame 10, leaves at frame 11, is near pizza1 at frame
15; no scooper ever appears. -/
def scnAf (k : Nat) : List Box × List Box × List Box :=
  if k = 10 then ([hb10], [], [])
  else if k = 15 then ([hb11], [], [pizza1])
  else ([hb11], [], [])

/-- Frames of the eviction scenario (claim C3): hand enters at 10, leaves
at 11, reaches pizza1 at frame 12 (PendingCheck opened), and is never
detected again from frame 13 on. -/
def scnBf (k : Nat) : List Box × List Box × List Box :=
  if k = 10 then ([hb10], [], [])
  else if k = 11 then ([hb11], [], [])
  else if k = 12 then ([hb11], [], [pizza1])
  else ([], [], [])

/-- Frames of the pending-overwrite scenario (claim C4): pending opened at
frame 12, hand re-enters the region at 13, leaves at 14, and is near the
pizza again at frame 15 while the first pending is still open. -/
def scnCf (k : Nat) : List Box × List Box × List Box :=
  if k = 10 then ([hb10], [], [])
  else if k = 12 then ([hb11], [], [pizza1])
  else if k = 13 then ([hb10], [], [])
  else if k = 15 then ([hb11], [], [pizza1])
  else ([hb11], [], [])

/-- Frames of the double-violation scenario (claim C10): pending opened at
frame 12, violation commits at frame 21, the hand re-enters the region at
22, leaves at 23, reaches the pizza again at 24, and a second violation
commits at frame 33. -/
def scnFf (k : Nat) : List Box × List Box × List Box :=
  if k = 10 then ([hb10], [], [])
  else if k = 12 then ([hb11], [], [pizza1])
  else if k = 22 then ([hb10], [], [])
  else if k = 24 then ([hb11], [], [pizza1])
  else ([hb11], [], [])

/-- Frames of the evidence scenario (claim C2 witness): pending opened at
frame 12; a scooper appears near the pizza at frame 13. -/
def scnGf (k : Nat) : List Box × List Box × List Box :=
  if k = 10 then ([hb10], [], [])
  else if k = 12 then ([hb11], [], [pizza1])
  else if k = 13 then ([hb11], [scoop1], [])
  else ([hb11], [], [])

/-- The state reached after frames 10..12 of scnFf: one hand (id 0) in
state "waiting_at_pizza" with an open pending of delay_counter 1. -/
def replayBase : TrackerState := (runScenario scnFf 12).1

/-- k successive replays of the identical frame (hand box hb11, no
scoopers, no pizzas, frame number 13) from replayBase (claim C7). -/
def replayAt (k : Nat) : TrackerState :=
  (fun st => (HandTracker.update st [hb11] [] [] 13).1)^[k] replayBase

/-- Frames of the plain-eviction scenario (claim C3): hand enters the
region at frame 10 in state "in_roi" and is never detected again. -/
def scnEf (k : Nat) : List Box × List Box × List Box :=
  if k = 10 then ([hb10], [], [])
  else ([], [], [])

/-- Frames of the in-flight eviction scenario (claim C3): hand enters at
10, leaves at 11 (state "tracking_to_pizza"), and is never detected
again. -/
def scnHf (k : Nat) : List Box × List Box × List Box :=
  if k = 10 then ([hb10], [], [])
  else if k = 11 then ([hb11], [], [])
  else ([], [], [])

/-- The hand-identity invariant of the tracker (claim C5): live hand ids
are pairwise distinct and all smaller than next_id. -/
def idInv (s : TrackerState) : Prop :=
  (HandTracker.keysOf s.hands).Nodup ∧
  ∀ k ∈ HandTracker.keysOf s.hands, k < s.next_id

/-- The pending-ownership invariant (claim C9): every hand id keying an
open pending violation is the id of a live hand. -/
def pendingInv (s : TrackerState) : Prop :=
  ∀ k ∈ HandTracker.keysOf s.pending_violations,
    k ∈ HandTracker.keysOf s.hands

namespace HandTracker

lemma mem_keysOf {α : Type} {l : List (Nat × α)} {k : Nat} :
    k ∈ keysOf l ↔ ∃ v, (k, v) ∈ l := by
  simp only [keysOf, List.mem_map]
  constructor
  · rintro ⟨⟨a, b⟩, hm, rfl⟩
    exact ⟨b, hm⟩
  · rintro ⟨v, hv⟩
    exact ⟨(k, v), hv, rfl⟩

lemma nodup_keys_eq {α : Type} {l : List (Nat × α)} (hnd : (keysOf l).Nodup)
    {k : Nat} {a b : α} (ha : (k, a) ∈ l) (hb : (k, b) ∈ l) : a = b := by
  induction l with
  | nil => cases ha
  | cons p t ih =>
    simp only [keysOf, List.map_cons, List.nodup_cons] at hnd
    rcases List.mem_cons.mp ha with h1 | h1
    · rcases List.mem_cons.mp hb with h2 | h2
      · rw [← h1] at h2
        exact (Prod.mk.injEq _ _ _ _ ▸ h2).2.symm
      · exfalso
        apply hnd.1
        rw [← h1]
        exact List.mem_map.mpr ⟨(k, b), h2, rfl⟩
    · rcases List.mem_cons.mp hb with h2 | h2
      · exfalso
        apply hnd.1
        rw [← h2]
        exact List.mem_map.mpr ⟨(k, a), h1, rfl⟩
      · exact ih hnd.2 h1 h2

lemma setDone_eq_of_forall_ne {hands : List (Nat × HandData)} {k : Nat}
    (h : ∀ p ∈ hands, p.1 ≠ k) : setDone hands k = hands := by
  induction hands with
  | nil => rfl
  | cons p t ih =>
    have hp : p.1 ≠ k := h p (List.mem_cons_self p t)
    simp only [setDone, List.map_cons] at ih ⊢
    rw [if_neg (by simpa using hp)]
    rw [ih (fun q hq => h q (List.mem_cons_of_mem p hq))]

lemma keysOf_setDone (hands : List (Nat × HandData)) (k : Nat) :
    keysOf (setDone hands k) = keysOf hands := by
  induction hands with
  | nil => rfl
  | cons p t ih =>
    simp only [setDone, keysOf, List.map_cons] at ih ⊢
    by_cases hp : p.1 = k
    · rw [if_pos (by simpa using hp)]
      simpa [hp] using ih
    · rw [if_neg (by simpa using hp)]
      simpa using ih

lemma mem_setDone {hands : List (Nat × HandData)} {k h : Nat} {hd : HandData}
    (hm : (h, hd) ∈ setDone hands k) :
    ∃ hd0, (h, hd0) ∈ hands ∧
      (hd = hd0 ∨ hd = { hd0 with state := "done" }) := by
  induction hands with
  | nil => cases hm
  | cons p t ih =>
    simp only [setDone, List.map_cons] at hm
    rcases List.mem_cons.mp hm with h1 | h1
    · by_cases hp : (p.1 == k) = true
      · rw [if_pos hp] at h1
        rw [Prod.mk.injEq] at h1
        obtain ⟨rfl, rfl⟩ := h1
        exact ⟨p.2, List.mem_cons_self p t, Or.inr rfl⟩
      · rw [if_neg hp] at h1
        exact ⟨hd, List.mem_cons.mpr (Or.inl h1), Or.inl rfl⟩
    · obtain ⟨hd0, hmem, hor⟩ := ih h1
      exact ⟨hd0, List.mem_cons_of_mem p hmem, hor⟩

end HandTracker

/-- C1: the spec's scenario claims the ViolationRecord
{frame := 25, hand_id := 0, region_name := "Cheese"} is emitted by the
update for frame 25. In the code the delay counter of a PendingCheck is
already incremented by the arbitration loop of the very frame that opens
it (frame 15), so on this exact scenario (hand enters Cheese at 10,
leaves at 11, near the pizza at 15, no scooper ever) elapsed reaches 10
at frame 24: the frame-25 update emits nothing. -/
theorem C1_counterexample :
    ((runScenario scnAf 10).1.hands.map (fun p => (p.1, p.2.state))
      = [(0, "in_roi")]) ∧
    ((runScenario scnAf 11).1.hands.map (fun p => (p.1, p.2.state))
      = [(0, "tracking_to_pizza")]) ∧
    ((runScenario scnAf 15).1.hands.map (fun p => (p.1, p.2.state))
      = [(0, "waiting_at_pizza")]) ∧
    ((runScenario scnAf 15).1.pending_violations.map
        (fun p => (p.1, p.2.roi_name)) = [(0, "Cheese")]) ∧
    (runScenario scnAf 25).2 = [] ∧
    ¬ (runScenario scnAf 25).2
        = [{ frame := 25, hand_id := 0, roi_name := "Cheese" }] := by
  decide

/-- C1 (amended): in the spec's scenario the single ViolationRecord is
emitted one frame earlier, by the update for frame 24 (elapsed is
incremented already in the opening frame 15, so it reaches 10 at frame
24); it is exactly {frame := 24, hand_id := 0, region_name := "Cheese"},
and the total violation count becomes 1 at that frame and is still 1
after frame 25. -/
theorem C1_amended_thm :
    ((runScenario scnAf 10).1.hands.map (fun p => (p.1, p.2.state))
      = [(0, "in_roi")]) ∧
    ((runScenario scnAf 11).1.hands.map (fun p => (p.1, p.2.state))
      = [(0, "tracking_to_pizza")]) ∧
    ((runScenario scnAf 15).1.hands.map (fun p => (p.1, p.2.state))
      = [(0, "waiting_at_pizza")]) ∧
    ((runScenario scnAf 23).2 = []) ∧
    ((runScenario scnAf 24).2
      = [{ frame := 24, hand_id := 0, roi_name := "Cheese" }]) ∧
    (HandTracker.get_violation_count (runScenario scnAf 24).1 = 1) ∧
    (HandTracker.get_violation_count (runScenario scnAf 25).1 = 1) := by
  decide

/-- C6: for every update call the new violations are appended to the
running list, so the total violation count equals the cumulative number
of committed records and never decreases. -/
theorem C6_thm (s : TrackerState)
    (hand_boxes scooper_boxes pizza_boxes : List Box) (frame_num : Nat) :
    (HandTracker.update s hand_boxes scooper_boxes pizza_boxes
        frame_num).1.violations
      = s.violations
        ++ (HandTracker.update s hand_boxes scooper_boxes pizza_boxes
              frame_num).2 ∧
    HandTracker.get_violation_count
        (HandTracker.update s hand_boxes scooper_boxes pizza_boxes frame_num).1
      = HandTracker.get_violation_count s
        + (HandTracker.update s hand_boxes scooper_boxes pizza_boxes
            frame_num).2.length ∧
    HandTracker.get_violation_count s
      ≤ HandTracker.get_violation_count
          (HandTracker.update s hand_boxes scooper_boxes pizza_boxes
            frame_num).1 := by
  refine ⟨rfl, ?_, ?_⟩ <;>
    simp [HandTracker.update, HandTracker.get_violation_count]

set_option maxRecDepth 4000 in
/-- C3: the claim asserts a Hand unmatched for 61 frames while in
AWAITING_EVIDENCE is not yet evicted and its PendingCheck remains open.
On the code, a PendingCheck resolves within VIOLATION_DELAY_FRAMES = 10
frames, setting the hand's state to "done" (RESOLVED), whose timeout is
60: in the concrete run below the hand enters "waiting_at_pizza" at frame
12, its pending commits at frame 21, and at its 61st consecutive
unmatched frame (frame 73) the hand has been evicted and no PendingCheck
is open, contradicting the claim. -/
theorem C3_counterexample :
    ((runScenario scnBf 12).1.hands.map (fun p => (p.1, p.2.state))
      = [(0, "waiting_at_pizza")]) ∧
    ((runScenario scnBf 72).1.hands.map
        (fun p => (p.1, p.2.state, p.2.frames_since_update))
      = [(0, "done", 60)]) ∧
    ((runScenario scnBf 73).1.hands = []) ∧
    ((runScenario scnBf 73).1.pending_violations = []) := by
  decide

/-- C4: the claim asserts an already-open PendingCheck is left untouched
when a TRACKING_TO_TARGET hand is near a pizza. The code overwrites it
unconditionally: in the run below a pending opened at frame 12 has
delay_counter 3 after frame 14, the hand re-enters and leaves the region,
is near the pizza again at frame 15 while that pending is still open, and
after frame 15 the pending has been replaced (opening frame 15,
delay_counter reset and then incremented once to 1). -/
theorem C4_counterexample :
    ((runScenario scnCf 14).1.hands.map (fun p => (p.1, p.2.state))
      = [(0, "tracking_to_pizza")]) ∧
    ((runScenario scnCf 14).1.pending_violations.map
        (fun p => (p.1, p.2.frame, p.2.delay_counter)) = [(0, 12, 3)]) ∧
    ((runScenario scnCf 15).1.hands.map (fun p => (p.1, p.2.state))
      = [(0, "waiting_at_pizza")]) ∧
    ((runScenario scnCf 15).1.pending_violations.map
        (fun p => (p.1, p.2.frame, p.2.delay_counter)) = [(0, 15, 1)]) := by
  decide

/-- C7: the claim asserts that replaying an identical frame after a call
that changed no Hand's state produces no new violations. In the run below
the 8th replay of the identical frame 13 leaves the hands map completely
unchanged (so the call changed no Hand's state) and emits nothing, yet
the 9th, identical, call pushes the open pending's delay counter to
VIOLATION_DELAY_FRAMES and emits a violation. -/
theorem C7_counterexample :
    ((replayAt 8).hands = (replayAt 7).hands) ∧
    ((HandTracker.update (replayAt 7) [hb11] [] [] 13).2 = []) ∧
    ((HandTracker.update (replayAt 8) [hb11] [] [] 13).2
      = [{ frame := 13, hand_id := 0, roi_name := "Cheese" }]) := by
  decide


namespace HandTracker

lemma mem_setDone_self {hands : List (Nat × HandData)} {h : Nat} {hd : HandData}
    (hm : (h, hd) ∈ setDone hands h) : hd.state = "done" := by
  induction hands with
  | nil => cases hm
  | cons p t ih =>
    simp only [setDone, List.map_cons] at hm
    rcases List.mem_cons.mp hm with h1 | h1
    · by_cases hp : (p.1 == h) = true
      · rw [if_pos hp] at h1
        rw [Prod.mk.injEq] at h1
        rw [h1.2]
      · rw [if_neg hp] at h1
        exfalso
        apply hp
        rw [← h1]
        exact beq_self_eq_true h
    · exact ih h1

lemma setDone_done_preserved {hands : List (Nat × HandData)} {h k : Nat}
    (hall : ∀ hd, (h, hd) ∈ hands → hd.state = "done") :
    ∀ hd, (h, hd) ∈ setDone hands k → hd.state = "done" := by
  intro hd hm
  obtain ⟨hd0, hmem, hor⟩ := mem_setDone hm
  rcases hor with h1 | h1
  · rw [h1]
    exact hall hd0 hmem
  · rw [h1]

lemma arbitrate_hands_of_disjoint (sc : List Box) (n : Nat) :
    ∀ (pendings : List (Nat × Pending)) (hands : List (Nat × HandData)),
      (∀ kq ∈ pendings, ∀ p ∈ hands, p.1 ≠ kq.1) →
      (arbitrate sc n pendings hands).2.1 = hands := by
  intro pendings
  induction pendings with
  | nil => intro hands _; rfl
  | cons kq rest ih =>
    intro hands hdisj
    obtain ⟨k, q⟩ := kq
    have hset : setDone hands k = hands :=
      setDone_eq_of_forall_ne
        (fun p hp => hdisj (k, q) (List.mem_cons_self _ _) p hp)
    have hrest : ∀ kq ∈ rest, ∀ p ∈ hands, p.1 ≠ kq.1 :=
      fun kq hkq p hp => hdisj kq (List.mem_cons_of_mem _ hkq) p hp
    simp only [arbitrate]
    by_cases h1 : is_scooper_at_pizza sc q.pizza_box (2/5) = true
    · rw [if_pos h1, hset]
      exact ih hands hrest
    · rw [if_neg h1]
      by_cases h2 : q.delay_counter + 1 ≥ VIOLATION_DELAY_FRAMES
      · rw [if_pos h2]
        dsimp only
        rw [hset]
        exact ih hands hrest
      · rw [if_neg h2]
        dsimp only
        exact ih hands hrest

lemma arbitrate_keep_keys (sc : List Box) (n : Nat) :
    ∀ (pendings : List (Nat × Pending)) (hands : List (Nat × HandData))
      (k : Nat) (q : Pending),
      (k, q) ∈ (arbitrate sc n pendings hands).1 →
      ∃ q0, (k, q0) ∈ pendings := by
  intro pendings
  induction pendings with
  | nil => intro hands k q hm; cases hm
  | cons kq rest ih =>
    intro hands k q hm
    obtain ⟨k0, q0⟩ := kq
    simp only [arbitrate] at hm
    by_cases h1 : is_scooper_at_pizza sc q0.pizza_box (2/5) = true
    · rw [if_pos h1] at hm
      obtain ⟨q1, hq1⟩ := ih _ k q hm
      exact ⟨q1, List.mem_cons_of_mem _ hq1⟩
    · rw [if_neg h1] at hm
      by_cases h2 : q0.delay_counter + 1 ≥ VIOLATION_DELAY_FRAMES
      · rw [if_pos h2] at hm
        dsimp only at hm
        obtain ⟨q1, hq1⟩ := ih _ k q hm
        exact ⟨q1, List.mem_cons_of_mem _ hq1⟩
      · rw [if_neg h2] at hm
        dsimp only at hm
        rcases List.mem_cons.mp hm with h3 | h3
        · rw [Prod.mk.injEq] at h3
          exact ⟨q0, by rw [h3.1]; exact List.mem_cons_self _ _⟩
        · obtain ⟨q1, hq1⟩ := ih _ k q h3
          exact ⟨q1, List.mem_cons_of_mem _ hq1⟩

lemma arbitrate_vio_ids (sc : List Box) (n : Nat) :
    ∀ (pendings : List (Nat × Pending)) (hands : List (Nat × HandData))
      (v : Violation),
      v ∈ (arbitrate sc n pendings hands).2.2 →
      ∃ q0, (v.hand_id, q0) ∈ pendings := by
  intro pendings
  induction pendings with
  | nil => intro hands v hm; cases hm
  | cons kq rest ih =>
    intro hands v hm
    obtain ⟨k0, q0⟩ := kq
    simp only [arbitrate] at hm
    by_cases h1 : is_scooper_at_pizza sc q0.pizza_box (2/5) = true
    · rw [if_pos h1] at hm
      obtain ⟨q1, hq1⟩ := ih _ v hm
      exact ⟨q1, List.mem_cons_of_mem _ hq1⟩
    · rw [if_neg h1] at hm
      by_cases h2 : q0.delay_counter + 1 ≥ VIOLATION_DELAY_FRAMES
      · rw [if_pos h2] at hm
        dsimp only at hm
        rcases List.mem_cons.mp hm with h3 | h3
        · refine ⟨q0, ?_⟩
          rw [h3]
          exact List.mem_cons_self _ _
        · obtain ⟨q1, hq1⟩ := ih _ v h3
          exact ⟨q1, List.mem_cons_of_mem _ hq1⟩
      · rw [if_neg h2] at hm
        dsimp only at hm
        obtain ⟨q1, hq1⟩ := ih _ v hm
        exact ⟨q1, List.mem_cons_of_mem _ hq1⟩

lemma keysOf_arbitrate_hands (sc : List Box) (n : Nat) :
    ∀ (pendings : List (Nat × Pending)) (hands : List (Nat × HandData)),
      keysOf (arbitrate sc n pendings hands).2.1 = keysOf hands := by
  intro pendings
  induction pendings with
  | nil => intro hands; rfl
  | cons kq rest ih =>
    intro hands
    obtain ⟨k0, q0⟩ := kq
    simp only [arbitrate]
    by_cases h1 : is_scooper_at_pizza sc q0.pizza_box (2/5) = true
    · rw [if_pos h1, ih, keysOf_setDone]
    · rw [if_neg h1]
      by_cases h2 : q0.delay_counter + 1 ≥ VIOLATION_DELAY_FRAMES
      · rw [if_pos h2]
        dsimp only
        rw [ih, keysOf_setDone]
      · rw [if_neg h2]
        dsimp only
        exact ih hands

lemma arbitrate_done_preserved (sc : List Box) (n : Nat) :
    ∀ (pendings : List (Nat × Pending)) (hands : List (Nat × HandData))
      (h : Nat),
      (∀ hd, (h, hd) ∈ hands → hd.state = "done") →
      ∀ hd, (h, hd) ∈ (arbitrate sc n pendings hands).2.1 →
        hd.state = "done" := by
  intro pendings
  induction pendings with
  | nil => intro hands h hall hd hm; exact hall hd hm
  | cons kq rest ih =>
    intro hands h hall hd hm
    obtain ⟨k0, q0⟩ := kq
    simp only [arbitrate] at hm
    by_cases h1 : is_scooper_at_pizza sc q0.pizza_box (2/5) = true
    · rw [if_pos h1] at hm
      exact ih _ h (setDone_done_preserved hall) hd hm
    · rw [if_neg h1] at hm
      by_cases h2 : q0.delay_counter + 1 ≥ VIOLATION_DELAY_FRAMES
      · rw [if_pos h2] at hm
        dsimp only at hm
        exact ih _ h (setDone_done_preserved hall) hd hm
      · rw [if_neg h2] at hm
        dsimp only at hm
        exact ih _ h hall hd hm

lemma arbitrate_mem_hands (sc : List Box) (n : Nat) :
    ∀ (pendings : List (Nat × Pending)) (hands : List (Nat × HandData))
      (h : Nat) (hd : HandData),
      (h, hd) ∈ (arbitrate sc n pendings hands).2.1 →
      ∃ hd0, (h, hd0) ∈ hands ∧
        (hd = hd0 ∨ hd = { hd0 with state := "done" }) := by
  intro pendings
  induction pendings with
  | nil => intro hands h hd hm; exact ⟨hd, hm, Or.inl rfl⟩
  | cons kq rest ih =>
    intro hands h hd hm
    obtain ⟨k0, q0⟩ := kq
    simp only [arbitrate] at hm
    have compose :
        ∀ (hands2 : List (Nat × HandData)),
          (h, hd) ∈ (arbitrate sc n rest hands2).2.1 →
          (∀ hd1, (h, hd1) ∈ hands2 →
            ∃ hd0, (h, hd0) ∈ hands ∧
              (hd1 = hd0 ∨ hd1 = { hd0 with state := "done" })) →
          ∃ hd0, (h, hd0) ∈ hands ∧
            (hd = hd0 ∨ hd = { hd0 with state := "done" }) := by
      intro hands2 hm2 hstep
      obtain ⟨hd1, hmem1, hor1⟩ := ih hands2 h hd hm2
      obtain ⟨hd0, hmem0, hor0⟩ := hstep hd1 hmem1
      refine ⟨hd0, hmem0, ?_⟩
      rcases hor1 with rfl | rfl
      · exact hor0
      · rcases hor0 with rfl | rfl
        · exact Or.inr rfl
        · exact Or.inr rfl
    by_cases h1 : is_scooper_at_pizza sc q0.pizza_box (2/5) = true
    · rw [if_pos h1] at hm
      exact compose _ hm (fun hd1 hm1 => mem_setDone hm1)
    · rw [if_neg h1] at hm
      by_cases h2 : q0.delay_counter + 1 ≥ VIOLATION_DELAY_FRAMES
      · rw [if_pos h2] at hm
        dsimp only at hm
        exact compose _ hm (fun hd1 hm1 => mem_setDone hm1)
      · rw [if_neg h2] at hm
        dsimp only at hm
        exact compose _ hm (fun hd1 hm1 => ⟨hd1, hm1, Or.inl rfl⟩)

lemma arbitrate_vios_nil (sc : List Box) (n : Nat) :
    ∀ (pendings : List (Nat × Pending)) (hands : List (Nat × HandData)),
      (∀ kq ∈ pendings, kq.2.delay_counter + 1 < VIOLATION_DELAY_FRAMES) →
      (arbitrate sc n pendings hands).2.2 = [] := by
  intro pendings
  induction pendings with
  | nil => intro hands _; rfl
  | cons kq rest ih =>
    intro hands hall
    obtain ⟨k0, q0⟩ := kq
    have hrest : ∀ kq ∈ rest, kq.2.delay_counter + 1 < VIOLATION_DELAY_FRAMES :=
      fun kq hkq => hall kq (List.mem_cons_of_mem _ hkq)
    simp only [arbitrate]
    by_cases h1 : is_scooper_at_pizza sc q0.pizza_box (2/5) = true
    · rw [if_pos h1]
      exact ih _ hrest
    · rw [if_neg h1]
      have h2 : ¬ q0.delay_counter + 1 ≥ VIOLATION_DELAY_FRAMES :=
        Nat.not_le.mpr (hall (k0, q0) (List.mem_cons_self _ _))
      rw [if_neg h2]
      dsimp only
      exact ih _ hrest

lemma arbitrate_evidence (sc : List Box) (n : Nat) :
    ∀ (pendings : List (Nat × Pending)) (hands : List (Nat × HandData))
      (h : Nat) (p : Pending),
      (keysOf pendings).Nodup → (h, p) ∈ pendings →
      is_scooper_at_pizza sc p.pizza_box (2/5) = true →
      (∀ q, (h, q) ∉ (arbitrate sc n pendings hands).1) ∧
      (∀ v ∈ (arbitrate sc n pendings hands).2.2, v.hand_id ≠ h) ∧
      (∀ hd, (h, hd) ∈ (arbitrate sc n pendings hands).2.1 →
        hd.state = "done") := by
  intro pendings
  induction pendings with
  | nil => intro hands h p _ hm; cases hm
  | cons kq rest ih =>
    intro hands h p hnd hm hev
    obtain ⟨k0, q0⟩ := kq
    have hnd2 : (keysOf rest).Nodup := by
      simp only [keysOf, List.map_cons, List.nodup_cons] at hnd
      exact hnd.2
    have hk0 : k0 ∉ keysOf rest := by
      simp only [keysOf, List.map_cons, List.nodup_cons] at hnd
      exact hnd.1
    rcases List.mem_cons.mp hm with h1 | h1
    · rw [Prod.mk.injEq] at h1
      obtain ⟨hk, hq⟩ := h1
      subst hk
      subst hq
      simp only [arbitrate]
      rw [if_pos hev]
      refine ⟨?_, ?_, ?_⟩
      · intro q hq
        obtain ⟨q1, hq1⟩ := arbitrate_keep_keys sc n rest _ h q hq
        exact hk0 (mem_keysOf.mpr ⟨q1, hq1⟩)
      · intro v hv hvh
        obtain ⟨q1, hq1⟩ := arbitrate_vio_ids sc n rest _ v hv
        rw [hvh] at hq1
        exact hk0 (mem_keysOf.mpr ⟨q1, hq1⟩)
      · intro hd hmem
        exact arbitrate_done_preserved sc n rest _ h
          (fun hd1 hm1 => mem_setDone_self hm1) hd hmem
    · have hne : k0 ≠ h := by
        intro hcontra
        apply hk0
        rw [hcontra]
        exact mem_keysOf.mpr ⟨p, h1⟩
      simp only [arbitrate]
      by_cases hc1 : is_scooper_at_pizza sc q0.pizza_box (2/5) = true
      · rw [if_pos hc1]
        exact ih _ h p hnd2 h1 hev
      · rw [if_neg hc1]
        by_cases hc2 : q0.delay_counter + 1 ≥ VIOLATION_DELAY_FRAMES
        · rw [if_pos hc2]
          dsimp only
          obtain ⟨ha, hb, hc⟩ := ih (setDone hands k0) h p hnd2 h1 hev
          refine ⟨ha, ?_, hc⟩
          intro v hv
          rcases List.mem_cons.mp hv with h3 | h3
          · rw [h3]
            exact hne
          · exact hb v h3
        · rw [if_neg hc2]
          dsimp only
          obtain ⟨ha, hb, hc⟩ := ih hands h p hnd2 h1 hev
          refine ⟨?_, hb, hc⟩
          intro q hq
          rcases List.mem_cons.mp hq with h3 | h3
          · rw [Prod.mk.injEq] at h3
            exact hne h3.1.symm
          · exact ha q h3

end HandTracker

namespace HandTracker

lemma keysOf_map_keyFixed {α : Type} (l : List (Nat × α))
    (f : Nat × α → Nat × α) (hf : ∀ p, (f p).1 = p.1) :
    keysOf (l.map f) = keysOf l := by
  induction l with
  | nil => rfl
  | cons p t ih =>
    simp only [keysOf, List.map_cons] at ih ⊢
    rw [hf p, ih]

lemma mem_dictInsert {l : List (Nat × Pending)} {k : Nat} {v : Pending}
    {k2 : Nat} {q : Pending} (hm : (k2, q) ∈ dictInsert l k v) :
    (∃ q0, (k2, q0) ∈ l) ∨ k2 = k := by
  unfold dictInsert at hm
  by_cases hc : l.any (fun p => p.1 == k) = true
  · rw [if_pos hc] at hm
    rw [List.mem_map] at hm
    obtain ⟨p, hp, heq⟩ := hm
    by_cases hpk : (p.1 == k) = true
    · rw [if_pos hpk] at heq
      right
      rw [Prod.mk.injEq] at heq
      rw [← heq.1]
      exact eq_of_beq hpk
    · rw [if_neg hpk] at heq
      left
      exact ⟨q, heq ▸ hp⟩
  · rw [if_neg hc] at hm
    rcases List.mem_append.mp hm with h1 | h1
    · left
      exact ⟨q, h1⟩
    · right
      have h2 := List.mem_singleton.mp h1
      rw [Prod.mk.injEq] at h2
      exact h2.1

lemma forall_dictInsert {l : List (Nat × Pending)} {k : Nat} {v : Pending}
    (P : Nat × Pending → Prop) (hl : ∀ kq ∈ l, P kq)
    (hv : ∀ k2, P (k2, v)) :
    ∀ kq ∈ dictInsert l k v, P kq := by
  intro kq hm
  unfold dictInsert at hm
  by_cases hc : l.any (fun p => p.1 == k) = true
  · rw [if_pos hc] at hm
    rw [List.mem_map] at hm
    obtain ⟨p, hp, heq⟩ := hm
    by_cases hpk : (p.1 == k) = true
    · rw [if_pos hpk] at heq
      rw [← heq]
      exact hv p.1
    · rw [if_neg hpk] at heq
      rw [← heq]
      exact hl p hp
  · rw [if_neg hc] at hm
    rcases List.mem_append.mp hm with h1 | h1
    · exact hl kq h1
    · rw [List.mem_singleton.mp h1]
      exact hv k

lemma step_matched_pendings_mem {rois : List Roi} {pizza_boxes : List Box}
    {frame_num hand_id : Nat} {hd0 : HandData} {hand_box : Box}
    {pendings : List (Nat × Pending)} {k : Nat} {q : Pending}
    (hm : (k, q) ∈ (step_matched rois pizza_boxes frame_num hand_id hd0
      hand_box pendings).2) :
    (∃ q0, (k, q0) ∈ pendings) ∨ k = hand_id := by
  rcases hfr : findRoi rois hand_box with _ | roi
  · simp only [step_matched, hfr] at hm
    by_cases h1 : hd0.state = "in_roi"
    · rw [if_pos h1] at hm
      exact Or.inl ⟨q, hm⟩
    · rw [if_neg h1] at hm
      by_cases h2 : hd0.state = "tracking_to_pizza"
      · rw [if_pos h2] at hm
        rcases hfp : pizza_boxes.find?
            (fun pb => is_near_pizza hand_box pb (1/2)) with _ | pz
        · rw [hfp] at hm
          exact Or.inl ⟨q, hm⟩
        · rw [hfp] at hm
          dsimp only at hm
          exact mem_dictInsert hm
      · rw [if_neg h2] at hm
        exact Or.inl ⟨q, hm⟩
  · simp only [step_matched, hfr] at hm
    exact Or.inl ⟨q, hm⟩

lemma step_matched_pendings_counter {rois : List Roi} {pizza_boxes : List Box}
    {frame_num hand_id : Nat} {hd0 : HandData} {hand_box : Box}
    {pendings : List (Nat × Pending)}
    (hall : ∀ kq ∈ pendings, kq.2.delay_counter = 0) :
    ∀ kq ∈ (step_matched rois pizza_boxes frame_num hand_id hd0
      hand_box pendings).2, kq.2.delay_counter = 0 := by
  intro kq hm
  rcases hfr : findRoi rois hand_box with _ | roi
  · simp only [step_matched, hfr] at hm
    by_cases h1 : hd0.state = "in_roi"
    · rw [if_pos h1] at hm
      exact hall kq hm
    · rw [if_neg h1] at hm
      by_cases h2 : hd0.state = "tracking_to_pizza"
      · rw [if_pos h2] at hm
        rcases hfp : pizza_boxes.find?
            (fun pb => is_near_pizza hand_box pb (1/2)) with _ | pz
        · rw [hfp] at hm
          exact hall kq hm
        · rw [hfp] at hm
          dsimp only at hm
          obtain ⟨k2, q2⟩ := kq
          exact forall_dictInsert (fun kq => kq.2.delay_counter = 0) hall
            (fun _ => rfl) (k2, q2) hm
      · rw [if_neg h2] at hm
        exact hall kq hm
  · simp only [step_matched, hfr] at hm
    exact hall kq hm

lemma matchLoop_keysOf (rois : List Roi) (pz : List Box) (n : Nat) :
    ∀ (boxes : List Box) (hands : List (Nat × HandData))
      (pendings : List (Nat × Pending)) (matched : List Nat)
      (news : List Box),
      keysOf (matchLoop rois pz n boxes hands pendings matched news).1
        = keysOf hands := by
  intro boxes
  induction boxes with
  | nil => intro hands pendings matched news; rfl
  | cons b rest ih =>
    intro hands pendings matched news
    simp only [matchLoop]
    rcases hfm : findMatch hands matched b with _ | m
    · exact ih hands pendings matched (news ++ [b])
    · dsimp only
      rw [ih]
      exact keysOf_map_keyFixed hands _ (fun p => by
        by_cases hc : (p.1 == m.1) = true
        · rw [if_pos hc]
        · rw [if_neg hc])

lemma matchLoop_pendings (rois : List Roi) (pz : List Box) (n : Nat) :
    ∀ (boxes : List Box) (hands : List (Nat × HandData))
      (pendings : List (Nat × Pending)) (matched : List Nat)
      (news : List Box) (k : Nat) (q : Pending),
      (k, q) ∈ (matchLoop rois pz n boxes hands pendings matched news).2.1 →
      (∃ q0, (k, q0) ∈ pendings) ∨ k ∈ keysOf hands := by
  intro boxes
  induction boxes with
  | nil => intro hands pendings matched news k q hm; exact Or.inl ⟨q, hm⟩
  | cons b rest ih =>
    intro hands pendings matched news k q hm
    simp only [matchLoop] at hm
    rcases hfm : findMatch hands matched b with _ | m
    · rw [hfm] at hm
      exact ih hands pendings matched (news ++ [b]) k q hm
    · rw [hfm] at hm
      dsimp only at hm
      have hkeys : keysOf (hands.map
          (fun p => if p.1 == m.1 then (p.1, (step_matched rois pz n m.1 m.2
            b pendings).1) else p)) = keysOf hands :=
        keysOf_map_keyFixed hands _ (fun p => by
          by_cases hc : (p.1 == m.1) = true
          · rw [if_pos hc]
          · rw [if_neg hc])
      rcases ih _ _ _ _ k q hm with h1 | h1
      · obtain ⟨q0, hq0⟩ := h1
        rcases step_matched_pendings_mem hq0 with h2 | h2
        · exact Or.inl h2
        · right
          rw [h2]
          exact mem_keysOf.mpr ⟨m.2, List.mem_of_find?_eq_some hfm⟩
      · right
        rw [hkeys] at h1
        exact h1

lemma matchLoop_counter (rois : List Roi) (pz : List Box) (n : Nat) :
    ∀ (boxes : List Box) (hands : List (Nat × HandData))
      (pendings : List (Nat × Pending)) (matched : List Nat)
      (news : List Box),
      (∀ kq ∈ pendings, kq.2.delay_counter = 0) →
      ∀ kq ∈ (matchLoop rois pz n boxes hands pendings matched news).2.1,
        kq.2.delay_counter = 0 := by
  intro boxes
  induction boxes with
  | nil => intro hands pendings matched news hall kq hm; exact hall kq hm
  | cons b rest ih =>
    intro hands pendings matched news hall kq hm
    simp only [matchLoop] at hm
    rcases hfm : findMatch hands matched b with _ | m
    · rw [hfm] at hm
      exact ih hands pendings matched (news ++ [b]) hall kq hm
    · rw [hfm] at hm
      dsimp only at hm
      exact ih _ _ _ _ (step_matched_pendings_counter hall) kq hm

lemma addNewHands_spec (rois : List Roi) :
    ∀ (boxes : List Box) (nid : Nat) (hands : List (Nat × HandData)),
      nid ≤ (addNewHands rois boxes nid hands).1 ∧
      ∃ extra, (addNewHands rois boxes nid hands).2 = hands ++ extra ∧
        ∀ kq ∈ extra, nid ≤ kq.1 ∧
          kq.1 < (addNewHands rois boxes nid hands).1 := by
  intro boxes
  induction boxes with
  | nil =>
    intro nid hands
    exact ⟨Nat.le_refl nid, [], (List.append_nil hands).symm,
      fun kq hkq => absurd hkq (List.not_mem_nil kq)⟩
  | cons b rest ih =>
    intro nid hands
    simp only [addNewHands]
    rcases hfr : findRoi rois b with _ | roi
    · exact ih nid hands
    · dsimp only
      obtain ⟨hle, extra2, heq, hbound⟩ := ih (nid + 1)
        (hands ++ [(nid, ⟨b, "in_roi", 0, roi.name⟩)])
      refine ⟨Nat.le_trans (Nat.le_succ nid) hle,
        (nid, ⟨b, "in_roi", 0, roi.name⟩) :: extra2, ?_, ?_⟩
      · rw [heq, List.append_assoc, List.singleton_append]
      · intro kq hkq
        rcases List.mem_cons.mp hkq with h1 | h1
        · rw [h1]
          exact ⟨Nat.le_refl nid, Nat.lt_of_lt_of_le (Nat.lt_succ_self nid) hle⟩
        · obtain ⟨h2, h3⟩ := hbound kq h1
          exact ⟨Nat.le_trans (Nat.le_succ nid) h2, h3⟩

lemma addNewHands_nodup (rois : List Roi) :
    ∀ (boxes : List Box) (nid : Nat) (hands : List (Nat × HandData)),
      (keysOf hands).Nodup → (∀ k ∈ keysOf hands, k < nid) →
      (keysOf (addNewHands rois boxes nid hands).2).Nodup ∧
      ∀ k ∈ keysOf (addNewHands rois boxes nid hands).2,
        k < (addNewHands rois boxes nid hands).1 := by
  intro boxes
  induction boxes with
  | nil => intro nid hands hnd hbd; exact ⟨hnd, hbd⟩
  | cons b rest ih =>
    intro nid hands hnd hbd
    simp only [addNewHands]
    rcases hfr : findRoi rois b with _ | roi
    · exact ih nid hands hnd hbd
    · dsimp only
      apply ih (nid + 1)
      · have hkeys : keysOf (hands ++ [(nid, (⟨b, "in_roi", 0, roi.name⟩ : HandData))])
            = keysOf hands ++ [nid] := by
          simp [keysOf]
        rw [hkeys]
        refine List.Nodup.append hnd (List.nodup_singleton nid) ?_
        intro k hk1 hk2
        rw [List.mem_singleton] at hk2
        exact absurd (hbd k hk1) (by rw [hk2]; exact Nat.lt_irrefl nid)
      · intro k hk
        have hkeys : keysOf (hands ++ [(nid, (⟨b, "in_roi", 0, roi.name⟩ : HandData))])
            = keysOf hands ++ [nid] := by
          simp [keysOf]
        rw [hkeys] at hk
        rcases List.mem_append.mp hk with h1 | h1
        · exact Nat.lt_trans (hbd k h1) (Nat.lt_succ_self nid)
        · rw [List.mem_singleton.mp h1]
          exact Nat.lt_succ_self nid

end HandTracker

namespace HandTracker

lemma contains_eq_false_of_not_mem {l : List Nat} {k : Nat} (h : k ∉ l) :
    l.contains k = false := by
  cases hc : l.contains k
  · rfl
  · exact absurd (List.mem_of_elem_eq_true hc) h

lemma contains_eq_true_of_mem {l : List Nat} {k : Nat} (h : k ∈ l) :
    l.contains k = true :=
  List.elem_eq_true_of_mem h

lemma bumpUnmatched_fst (matched : List Nat) (p : Nat × HandData) :
    (bumpUnmatched matched p).1 = p.1 := by
  unfold bumpUnmatched
  by_cases hc : (matched.contains p.1) = true
  · rw [if_pos hc]
  · rw [if_neg hc]

lemma keysOf_bumpUnmatched (matched : List Nat)
    (hands : List (Nat × HandData)) :
    keysOf (hands.map (bumpUnmatched matched)) = keysOf hands :=
  keysOf_map_keyFixed hands _ (bumpUnmatched_fst matched)

lemma evict_hands_mem {matched : List Nat} {hands : List (Nat × HandData)}
    {pendings : List (Nat × Pending)} {h : Nat} {hd : HandData}
    (hm : (h, hd) ∈ (evict matched hands pendings).1) :
    ∃ hd0, (h, hd0) ∈ hands ∧ hd.state = hd0.state := by
  simp only [evict] at hm
  have hm2 := List.mem_of_mem_filter hm
  rw [List.mem_map] at hm2
  obtain ⟨p, hp, heq⟩ := hm2
  unfold bumpUnmatched at heq
  by_cases hc : (matched.contains p.1) = true
  · rw [if_pos hc] at heq
    exact ⟨hd, heq ▸ hp, rfl⟩
  · rw [if_neg hc] at heq
    rw [Prod.mk.injEq] at heq
    refine ⟨p.2, ?_, ?_⟩
    · rw [← heq.1]
      exact hp
    · rw [← heq.2]

end HandTracker

namespace HandTracker

lemma evict_pendings_mem {matched : List Nat} {hands : List (Nat × HandData)}
    {pendings : List (Nat × Pending)} {k : Nat} {q : Pending}
    (hq : (k, q) ∈ (evict matched hands pendings).2) : (k, q) ∈ pendings := by
  simp only [evict] at hq
  exact List.mem_of_mem_filter hq

lemma keysOf_filter_nodup {α : Type} {l : List (Nat × α)} (f : Nat × α → Bool)
    (hnd : (keysOf l).Nodup) : (keysOf (l.filter f)).Nodup :=
  List.Nodup.sublist (List.Sublist.map Prod.fst (List.filter_sublist l)) hnd

lemma evict_keys_nodup {matched : List Nat} {hands : List (Nat × HandData)}
    {pendings : List (Nat × Pending)} (hnd : (keysOf hands).Nodup) :
    (keysOf (evict matched hands pendings).1).Nodup := by
  simp only [evict]
  apply keysOf_filter_nodup
  rw [keysOf_bumpUnmatched]
  exact hnd

lemma evict_keys_subset {matched : List Nat} {hands : List (Nat × HandData)}
    {pendings : List (Nat × Pending)} {k : Nat}
    (hk : k ∈ keysOf (evict matched hands pendings).1) : k ∈ keysOf hands := by
  rw [mem_keysOf] at hk
  obtain ⟨v, hv⟩ := hk
  obtain ⟨hd0, hmem, _⟩ := evict_hands_mem hv
  exact mem_keysOf.mpr ⟨hd0, hmem⟩

lemma evict_pending_key_in_hands {matched : List Nat}
    {hands : List (Nat × HandData)} {pendings : List (Nat × Pending)}
    {k : Nat} {q : Pending}
    (hq : (k, q) ∈ (evict matched hands pendings).2)
    (hk : k ∈ keysOf hands) :
    k ∈ keysOf (evict matched hands pendings).1 := by
  simp only [evict] at hq ⊢
  have hpred := List.of_mem_filter hq
  dsimp only at hpred
  rw [mem_keysOf] at hk
  obtain ⟨hd, hhd⟩ := hk
  rw [mem_keysOf]
  have hfst : (bumpUnmatched matched (k, hd)).1 = k := bumpUnmatched_fst _ _
  refine ⟨(bumpUnmatched matched (k, hd)).2, ?_⟩
  rw [List.mem_filter]
  constructor
  · rw [List.mem_map]
    exact ⟨(k, hd), hhd, Prod.ext hfst rfl⟩
  · dsimp only
    exact hpred

lemma mem_lostOf_iff {matched : List Nat} {hands : List (Nat × HandData)}
    {h : Nat} {hd : HandData} (hnd : (keysOf hands).Nodup)
    (hm : (h, hd) ∈ hands) (hum : h ∉ matched) :
    h ∈ lostOf matched hands ↔
      hand_timeout hd < hd.frames_since_update + 1 := by
  have hcont : matched.contains h = false := contains_eq_false_of_not_mem hum
  have hbump : bumpUnmatched matched (h, hd)
      = (h, { hd with frames_since_update := hd.frames_since_update + 1 }) := by
    unfold bumpUnmatched
    rw [if_neg (by rw [show ((h, hd).1 : Nat) = h from rfl, hcont]; exact
      Bool.false_ne_true)]
  constructor
  · intro hin
    unfold lostOf at hin
    rw [List.mem_map] at hin
    obtain ⟨p, hp, hfst⟩ := hin
    have hpm := List.mem_of_mem_filter hp
    have hpred := List.of_mem_filter hp
    rw [List.mem_map] at hpm
    obtain ⟨p0, hp0, hbump0⟩ := hpm
    have hk0 : p0.1 = h := by
      rw [← hfst, ← hbump0, bumpUnmatched_fst]
    have hmem0 : (h, p0.2) ∈ hands := by
      rw [← hk0]
      exact hp0
    have heq0 : p0.2 = hd := nodup_keys_eq hnd hmem0 hm
    have hp0eq : p0 = (h, hd) := by
      rw [← hk0, ← heq0]
    rw [hp0eq, hbump] at hbump0
    rw [← hbump0] at hpred
    unfold lostPred at hpred
    dsimp only at hpred
    rw [hcont] at hpred
    simp only [Bool.not_false, Bool.true_and] at hpred
    exact of_decide_eq_true hpred
  · intro hgt
    unfold lostOf
    rw [List.mem_map]
    refine ⟨(h, { hd with frames_since_update := hd.frames_since_update + 1 }),
      ?_, rfl⟩
    rw [List.mem_filter]
    constructor
    · rw [List.mem_map]
      exact ⟨(h, hd), hm, hbump⟩
    · unfold lostPred
      dsimp only
      rw [hcont]
      have hdec : decide
          (({ hd with frames_since_update := hd.frames_since_update + 1 }
              : HandData).frames_since_update
            > hand_timeout
              ({ hd with frames_since_update := hd.frames_since_update + 1 }
                : HandData)) = true := decide_eq_true hgt
      rw [hdec]
      rfl

lemma evict_kept {matched : List Nat} {hands : List (Nat × HandData)}
    {pendings : List (Nat × Pending)} {h : Nat} {hd : HandData}
    (hnd : (keysOf hands).Nodup) (hm : (h, hd) ∈ hands) (hum : h ∉ matched)
    (hle : hd.frames_since_update + 1 ≤ hand_timeout hd) :
    (h, { hd with frames_since_update := hd.frames_since_update + 1 })
      ∈ (evict matched hands pendings).1 := by
  have hcont : matched.contains h = false := contains_eq_false_of_not_mem hum
  have hbump : bumpUnmatched matched (h, hd)
      = (h, { hd with frames_since_update := hd.frames_since_update + 1 }) := by
    unfold bumpUnmatched
    rw [if_neg (by rw [show ((h, hd).1 : Nat) = h from rfl, hcont]; exact
      Bool.false_ne_true)]
  have hnl : h ∉ lostOf matched hands := by
    rw [mem_lostOf_iff hnd hm hum]
    exact Nat.not_lt.mpr hle
  simp only [evict]
  rw [List.mem_filter]
  constructor
  · rw [List.mem_map]
    exact ⟨(h, hd), hm, hbump⟩
  · dsimp only
    rw [contains_eq_false_of_not_mem hnl]
    rfl

lemma evict_gone {matched : List Nat} {hands : List (Nat × HandData)}
    {pendings : List (Nat × Pending)} {h : Nat} {hd : HandData}
    (hnd : (keysOf hands).Nodup) (hm : (h, hd) ∈ hands) (hum : h ∉ matched)
    (hgt : hand_timeout hd < hd.frames_since_update + 1) :
    h ∉ keysOf (evict matched hands pendings).1 ∧
    ∀ q, (h, q) ∉ (evict matched hands pendings).2 := by
  have hl : h ∈ lostOf matched hands := (mem_lostOf_iff hnd hm hum).mpr hgt
  have hcont := contains_eq_true_of_mem hl
  constructor
  · intro hk
    rw [mem_keysOf] at hk
    obtain ⟨v, hv⟩ := hk
    simp only [evict] at hv
    have hpred := List.of_mem_filter hv
    dsimp only at hpred
    rw [hcont] at hpred
    simp at hpred
  · intro q hq
    simp only [evict] at hq
    have hpred := List.of_mem_filter hq
    dsimp only at hpred
    rw [hcont] at hpred
    simp at hpred

end HandTracker

/-- C2: for every PendingCheck open in the frame being processed (i.e.
among the pendings present after the matching phase), if any scooper box
in the flattened ScooperHistory (the last 15 frames' scooper sets,
including the current frame's, as computed by recentScoopers) is near
(margin 2/5) the pending's recorded pizza_box, then this frame's update
removes that pending, emits no violation for that hand, and any surviving
hand with that id is in state "done" (RESOLVED); since this holds
regardless of the pending's elapsed counter, the evidence check takes
priority over the elapsed-based commit. -/
theorem C2_thm (s : TrackerState)
    (hand_boxes scooper_boxes pizza_boxes : List Box) (frame_num h : Nat)
    (p : Pending)
    (hnd : (HandTracker.keysOf
      (HandTracker.postMatch s hand_boxes pizza_boxes frame_num).2.1).Nodup)
    (hmem : (h, p) ∈
      (HandTracker.postMatch s hand_boxes pizza_boxes frame_num).2.1)
    (hev : is_scooper_at_pizza (HandTracker.recentScoopers s scooper_boxes)
      p.pizza_box (2/5) = true) :
    (∀ q, (h, q) ∉ (HandTracker.update s hand_boxes scooper_boxes pizza_boxes
        frame_num).1.pending_violations) ∧
    (∀ v ∈ (HandTracker.update s hand_boxes scooper_boxes pizza_boxes
        frame_num).2, v.hand_id ≠ h) ∧
    (∀ hd, (h, hd) ∈ (HandTracker.update s hand_boxes scooper_boxes
        pizza_boxes frame_num).1.hands → hd.state = "done") := by
  obtain ⟨ha, hb, hc⟩ := HandTracker.arbitrate_evidence
    (HandTracker.recentScoopers s scooper_boxes) frame_num
    (HandTracker.postMatch s hand_boxes pizza_boxes frame_num).2.1
    (HandTracker.addNewHands s.rois
      (HandTracker.postMatch s hand_boxes pizza_boxes frame_num).2.2.2
      s.next_id
      (HandTracker.postMatch s hand_boxes pizza_boxes frame_num).1).2
    h p hnd hmem hev
  refine ⟨?_, ?_, ?_⟩
  · intro q hq
    simp only [HandTracker.update] at hq
    exact ha q (HandTracker.evict_pendings_mem hq)
  · intro v hv
    simp only [HandTracker.update] at hv
    exact hb v hv
  · intro hd hmem2
    simp only [HandTracker.update] at hmem2
    obtain ⟨hd0, hmem0, hstate⟩ := HandTracker.evict_hands_mem hmem2
    rw [hstate]
    exact hc hd0 hmem0

/-- C2 witness: in the evidence scenario a pending for hand 0 (opened at
frame 12 on pizza1) is open at frame 13 when a scooper near pizza1
appears: the frame-13 update clears it, emits nothing, and leaves hand 0
in state "done". -/
theorem C2_witness :
    (∀ q, (0, q) ∉ (HandTracker.update (runScenario scnGf 12).1 [hb11]
        [scoop1] [] 13).1.pending_violations) ∧
    (∀ v ∈ (HandTracker.update (runScenario scnGf 12).1 [hb11]
        [scoop1] [] 13).2, v.hand_id ≠ 0) ∧
    (∀ hd, (0, hd) ∈ (HandTracker.update (runScenario scnGf 12).1 [hb11]
        [scoop1] [] 13).1.hands → hd.state = "done") :=
  C2_thm (runScenario scnGf 12).1 [hb11] [scoop1] [] 13 0
    { frame := 12, pizza_box := pizza1, roi_name := "Cheese",
      delay_counter := 1 }
    (by decide) (by decide) (by decide)

/-- C9: the pending-ownership invariant is preserved by every update
call: every hand id keying an open PendingCheck after the update is the
id of a live Hand (a pending is only created for a hand matched this
frame, and is deleted in the same frame its hand is evicted). -/
theorem C9_thm (s : TrackerState)
    (hand_boxes scooper_boxes pizza_boxes : List Box) (frame_num : Nat)
    (hinv : pendingInv s) :
    pendingInv (HandTracker.update s hand_boxes scooper_boxes pizza_boxes
      frame_num).1 := by
  intro k hk
  simp only [HandTracker.update] at hk ⊢
  rw [HandTracker.mem_keysOf] at hk
  obtain ⟨q, hq⟩ := hk
  have hq1 : (k, q) ∈ (HandTracker.arbitrate
      (HandTracker.recentScoopers s scooper_boxes) frame_num
      (HandTracker.postMatch s hand_boxes pizza_boxes frame_num).2.1
      (HandTracker.addNewHands s.rois
        (HandTracker.postMatch s hand_boxes pizza_boxes frame_num).2.2.2
        s.next_id
        (HandTracker.postMatch s hand_boxes pizza_boxes frame_num).1).2).1 :=
    HandTracker.evict_pendings_mem hq
  obtain ⟨q0, hq0⟩ := HandTracker.arbitrate_keep_keys _ _ _ _ _ _ hq1
  have hk_in_s_hands : k ∈ HandTracker.keysOf s.hands := by
    rcases HandTracker.matchLoop_pendings s.rois pizza_boxes frame_num
      hand_boxes s.hands s.pending_violations [] [] k q0 hq0 with h1 | h1
    · obtain ⟨q1, hq1s⟩ := h1
      exact hinv k (HandTracker.mem_keysOf.mpr ⟨q1, hq1s⟩)
    · exact h1
  have hk_in_hands1 : k ∈ HandTracker.keysOf
      (HandTracker.postMatch s hand_boxes pizza_boxes frame_num).1 := by
    rw [show HandTracker.keysOf
        (HandTracker.postMatch s hand_boxes pizza_boxes frame_num).1
        = HandTracker.keysOf s.hands from
      HandTracker.matchLoop_keysOf s.rois pizza_boxes frame_num hand_boxes
        s.hands s.pending_violations [] []]
    exact hk_in_s_hands
  have hk_in_hands2 : k ∈ HandTracker.keysOf
      (HandTracker.addNewHands s.rois
        (HandTracker.postMatch s hand_boxes pizza_boxes frame_num).2.2.2
        s.next_id
        (HandTracker.postMatch s hand_boxes pizza_boxes frame_num).1).2 := by
    obtain ⟨hle, extra, hext, hbound⟩ := HandTracker.addNewHands_spec s.rois
      (HandTracker.postMatch s hand_boxes pizza_boxes frame_num).2.2.2
      s.next_id (HandTracker.postMatch s hand_boxes pizza_boxes frame_num).1
    rw [hext]
    simp only [HandTracker.keysOf, List.map_append, List.mem_append]
    left
    exact hk_in_hands1
  have hk_in_hands3 : k ∈ HandTracker.keysOf
      (HandTracker.arbitrate
        (HandTracker.recentScoopers s scooper_boxes) frame_num
        (HandTracker.postMatch s hand_boxes pizza_boxes frame_num).2.1
        (HandTracker.addNewHands s.rois
          (HandTracker.postMatch s hand_boxes pizza_boxes frame_num).2.2.2
          s.next_id
          (HandTracker.postMatch s hand_boxes pizza_boxes
            frame_num).1).2).2.1 := by
    rw [HandTracker.keysOf_arbitrate_hands]
    exact hk_in_hands2
  exact HandTracker.evict_pending_key_in_hands hq hk_in_hands3

/-- C9 witness: the invariant holds for the state after frame 12 of the
evidence scenario and is preserved by its frame-13 update. -/
theorem C9_witness :
    pendingInv (HandTracker.update (runScenario scnGf 12).1 [hb11]
      [scoop1] [] 13).1 :=
  C9_thm (runScenario scnGf 12).1 [hb11] [scoop1] [] 13
    (by unfold pendingInv; decide)

/-- C5: the hand-identity invariant is preserved by every update call:
live ids stay pairwise distinct and below next_id, next_id never
decreases, and every live hand after the update either existed before or
carries a fresh id at least the old next_id — so an id is never reused
and ids are assigned in increasing order across the session. -/
theorem C5_thm (s : TrackerState)
    (hand_boxes scooper_boxes pizza_boxes : List Box) (frame_num : Nat)
    (hinv : idInv s) :
    idInv (HandTracker.update s hand_boxes scooper_boxes pizza_boxes
      frame_num).1 ∧
    s.next_id ≤ (HandTracker.update s hand_boxes scooper_boxes pizza_boxes
      frame_num).1.next_id ∧
    ∀ k ∈ HandTracker.keysOf (HandTracker.update s hand_boxes scooper_boxes
      pizza_boxes frame_num).1.hands,
      k ∈ HandTracker.keysOf s.hands ∨ s.next_id ≤ k := by
  obtain ⟨hnd, hbd⟩ := hinv
  have hm1 : HandTracker.keysOf
      (HandTracker.postMatch s hand_boxes pizza_boxes frame_num).1
      = HandTracker.keysOf s.hands :=
    HandTracker.matchLoop_keysOf s.rois pizza_boxes frame_num hand_boxes
      s.hands s.pending_violations [] []
  have hnd1 : (HandTracker.keysOf
      (HandTracker.postMatch s hand_boxes pizza_boxes frame_num).1).Nodup := by
    rw [hm1]
    exact hnd
  have hbd1 : ∀ k ∈ HandTracker.keysOf
      (HandTracker.postMatch s hand_boxes pizza_boxes frame_num).1,
      k < s.next_id := by
    rw [hm1]
    exact hbd
  obtain ⟨hnd2, hbd2⟩ := HandTracker.addNewHands_nodup s.rois
    (HandTracker.postMatch s hand_boxes pizza_boxes frame_num).2.2.2
    s.next_id (HandTracker.postMatch s hand_boxes pizza_boxes frame_num).1
    hnd1 hbd1
  obtain ⟨hle, extra, hext, hbound⟩ := HandTracker.addNewHands_spec s.rois
    (HandTracker.postMatch s hand_boxes pizza_boxes frame_num).2.2.2
    s.next_id (HandTracker.postMatch s hand_boxes pizza_boxes frame_num).1
  have hk3 : HandTracker.keysOf
      (HandTracker.arbitrate
        (HandTracker.recentScoopers s scooper_boxes) frame_num
        (HandTracker.postMatch s hand_boxes pizza_boxes frame_num).2.1
        (HandTracker.addNewHands s.rois
          (HandTracker.postMatch s hand_boxes pizza_boxes frame_num).2.2.2
          s.next_id
          (HandTracker.postMatch s hand_boxes pizza_boxes
            frame_num).1).2).2.1
      = HandTracker.keysOf
        (HandTracker.addNewHands s.rois
          (HandTracker.postMatch s hand_boxes pizza_boxes frame_num).2.2.2
          s.next_id
          (HandTracker.postMatch s hand_boxes pizza_boxes frame_num).1).2 :=
    HandTracker.keysOf_arbitrate_hands _ _ _ _
  refine ⟨⟨?_, ?_⟩, ?_, ?_⟩
  · simp only [HandTracker.update]
    apply HandTracker.evict_keys_nodup
    rw [hk3]
    exact hnd2
  · intro k hk
    simp only [HandTracker.update] at hk ⊢
    have hk2 := HandTracker.evict_keys_subset hk
    rw [hk3] at hk2
    exact hbd2 k hk2
  · simp only [HandTracker.update]
    exact hle
  · intro k hk
    simp only [HandTracker.update] at hk
    have hk2 := HandTracker.evict_keys_subset hk
    rw [hk3] at hk2
    rw [hext] at hk2
    simp only [HandTracker.keysOf, List.map_append, List.mem_append] at hk2
    rcases hk2 with h1 | h1
    · left
      rw [← hm1]
      exact h1
    · right
      rw [List.mem_map] at h1
      obtain ⟨kq, hkq, hfst⟩ := h1
      rw [← hfst]
      exact (hbound kq hkq).1

/-- C5 witness: the identity invariant holds for the fresh tracker and is
preserved by the first update of the violation scenario. -/
theorem C5_witness :
    idInv (HandTracker.update (HandTracker.init [cheeseRoi]) [hb10] [] []
      10).1 ∧
    (HandTracker.init [cheeseRoi]).next_id
      ≤ (HandTracker.update (HandTracker.init [cheeseRoi]) [hb10] [] []
          10).1.next_id ∧
    ∀ k ∈ HandTracker.keysOf (HandTracker.update (HandTracker.init
      [cheeseRoi]) [hb10] [] [] 10).1.hands,
      k ∈ HandTracker.keysOf (HandTracker.init [cheeseRoi]).hands ∨
        (HandTracker.init [cheeseRoi]).next_id ≤ k :=
  C5_thm (HandTracker.init [cheeseRoi]) [hb10] [] [] 10
    (by unfold idInv; decide)

/-- C7 (amended): replaying an identical frame produces no new violations
provided additionally that no PendingCheck is open when the second call
runs (an open PendingCheck's elapsed counter advances on every call, so a
replay can push it to the commit threshold — see the counterexample);
apart from counter increments for unmatched hands the replay also
advances the ScooperHistory buffer by one frame, and the running
violation list is unchanged. -/
theorem C7_amended_thm (s : TrackerState)
    (hand_boxes scooper_boxes pizza_boxes : List Box) (frame_num : Nat)
    (hp : s.pending_violations = []) :
    (HandTracker.update s hand_boxes scooper_boxes pizza_boxes
      frame_num).2 = [] ∧
    (HandTracker.update s hand_boxes scooper_boxes pizza_boxes
      frame_num).1.violations = s.violations ∧
    (HandTracker.update s hand_boxes scooper_boxes pizza_boxes
      frame_num).1.scooper_history
      = HandTracker.historyAfter s scooper_boxes := by
  have hcnt : ∀ kq ∈ (HandTracker.postMatch s hand_boxes pizza_boxes
      frame_num).2.1, kq.2.delay_counter = 0 := by
    apply HandTracker.matchLoop_counter s.rois pizza_boxes frame_num
      hand_boxes s.hands s.pending_violations [] []
    rw [hp]
    intro kq hkq
    cases hkq
  have hvios : (HandTracker.arbitrate
      (HandTracker.recentScoopers s scooper_boxes) frame_num
      (HandTracker.postMatch s hand_boxes pizza_boxes frame_num).2.1
      (HandTracker.addNewHands s.rois
        (HandTracker.postMatch s hand_boxes pizza_boxes frame_num).2.2.2
        s.next_id
        (HandTracker.postMatch s hand_boxes pizza_boxes
          frame_num).1).2).2.2 = [] := by
    apply HandTracker.arbitrate_vios_nil
    intro kq hkq
    rw [hcnt kq hkq]
    decide
  refine ⟨?_, ?_, ?_⟩
  · simp only [HandTracker.update]
    exact hvios
  · simp only [HandTracker.update]
    rw [hvios, List.append_nil]
  · simp only [HandTracker.update]

/-- C7 witness: a fresh tracker has no open pending, so replaying its
first frame emits nothing and leaves the violation list empty. -/
theorem C7_amended_witness :
    (HandTracker.update (HandTracker.init [cheeseRoi]) [hb10] [] []
      10).2 = [] ∧
    (HandTracker.update (HandTracker.init [cheeseRoi]) [hb10] [] []
      10).1.violations = (HandTracker.init [cheeseRoi]).violations ∧
    (HandTracker.update (HandTracker.init [cheeseRoi]) [hb10] [] []
      10).1.scooper_history
      = HandTracker.historyAfter (HandTracker.init [cheeseRoi]) [] :=
  C7_amended_thm (HandTracker.init [cheeseRoi]) [hb10] [] [] 10 rfl

/-- C4 (amended): when a matched Hand in TRACKING_TO_TARGET is near
(margin 1/2) some pizza box, a PendingCheck for its id is opened
unconditionally: the hand moves to "waiting_at_pizza" and the pendings
dict receives {frame, pizza box, region name, elapsed 0} under its id —
and when a PendingCheck is already open for that id, it is overwritten in
place (same dict position, all fields replaced), not left untouched. -/
theorem C4_amended_thm (rois : List Roi) (pizza_boxes : List Box)
    (frame_num hand_id : Nat) (hd0 : HandData) (hand_box : Box)
    (pendings : List (Nat × Pending)) (pz : Box)
    (hroi : HandTracker.findRoi rois hand_box = none)
    (hst : hd0.state = "tracking_to_pizza")
    (hfp : pizza_boxes.find? (fun pb => is_near_pizza hand_box pb (1/2))
      = some pz) :
    HandTracker.step_matched rois pizza_boxes frame_num hand_id hd0
        hand_box pendings
      = ((⟨hand_box, "waiting_at_pizza", 0, hd0.roi_name⟩ : HandData),
         HandTracker.dictInsert pendings hand_id
           ⟨frame_num, pz, hd0.roi_name, 0⟩) ∧
    (∀ q0, (hand_id, q0) ∈ pendings →
      HandTracker.dictInsert pendings hand_id
          ⟨frame_num, pz, hd0.roi_name, 0⟩
        = pendings.map (fun p => if p.1 == hand_id then
            (p.1, (⟨frame_num, pz, hd0.roi_name, 0⟩ : Pending))
          else p)) := by
  constructor
  · simp only [HandTracker.step_matched, hroi]
    rw [hst]
    rw [if_neg (by decide)]
    rw [if_pos rfl]
    rw [hfp]
  · intro q0 hq0
    unfold HandTracker.dictInsert
    rw [if_pos]
    rw [List.any_eq_true]
    exact ⟨(hand_id, q0), hq0, by simp⟩

/-- C4 witness: the transition applied to a tracking hand near pizza1
with a stale pending (elapsed 3, opened at frame 12) already open for id
0 replaces that pending in place with the fresh one opened at frame 15. -/
theorem C4_witness :
    HandTracker.step_matched [cheeseRoi] [pizza1] 15 0
        ⟨hb11, "tracking_to_pizza", 0, "Cheese"⟩ hb11
        [(0, ⟨12, pizza1, "Cheese", 3⟩)]
      = ((⟨hb11, "waiting_at_pizza", 0, "Cheese"⟩ : HandData),
         HandTracker.dictInsert [(0, ⟨12, pizza1, "Cheese", 3⟩)] 0
           ⟨15, pizza1, "Cheese", 0⟩) ∧
    HandTracker.dictInsert [(0, ⟨12, pizza1, "Cheese", 3⟩)] 0
        ⟨15, pizza1, "Cheese", 0⟩
      = [(0, (⟨15, pizza1, "Cheese", 0⟩ : Pending))] := by
  have h := C4_amended_thm [cheeseRoi] [pizza1] 15 0
    ⟨hb11, "tracking_to_pizza", 0, "Cheese"⟩ hb11
    [(0, ⟨12, pizza1, "Cheese", 3⟩)] pizza1
    (by decide) rfl (by decide)
  refine ⟨h.1, ?_⟩
  have h2 := h.2 ⟨12, pizza1, "Cheese", 3⟩ (List.mem_singleton.mpr rfl)
  rw [h2]
  decide

set_option maxRecDepth 20000 in
/-- C3 (amended): each frame an unmatched Hand's frames_since_update is
incremented and the hand is evicted exactly when the counter exceeds its
timeout — 60 frames, or 120 when its state at the eviction check (taken
after that frame's arbitration) is "tracking_to_pizza" or
"waiting_at_pizza" — with its PendingCheck removed and no violation
produced by eviction. A hand unmatched 61 consecutive frames in
NEW_IN_REGION is evicted (none of its frames produced a violation); one
in TRACKING_TO_TARGET survives 61 unmatched frames and is evicted only
past 120; but a hand that entered AWAITING_EVIDENCE has its PendingCheck
resolve within VIOLATION_DELAY_FRAMES frames, which sets its state to
RESOLVED and its timeout to 60, so at its 61st unmatched frame it has
been evicted and no PendingCheck is open. -/
theorem C3_amended_thm :
    (∀ (matched : List Nat) (hands : List (Nat × HandData))
       (pendings : List (Nat × Pending)) (h : Nat) (hd : HandData),
       (HandTracker.keysOf hands).Nodup → (h, hd) ∈ hands → h ∉ matched →
       (HandTracker.hand_timeout hd
         = if hd.state = "tracking_to_pizza" ∨ hd.state = "waiting_at_pizza"
           then HAND_TIMEOUT_FRAMES * 2 else HAND_TIMEOUT_FRAMES) ∧
       (hd.frames_since_update + 1 ≤ HandTracker.hand_timeout hd →
         (h, { hd with frames_since_update := hd.frames_since_update + 1 })
           ∈ (HandTracker.evict matched hands pendings).1) ∧
       (HandTracker.hand_timeout hd < hd.frames_since_update + 1 →
         h ∉ HandTracker.keysOf
             (HandTracker.evict matched hands pendings).1 ∧
         ∀ q, (h, q) ∉ (HandTracker.evict matched hands pendings).2)) ∧
    ((runScenario scnEf 69).1.hands.map
        (fun p => (p.1, p.2.state, p.2.frames_since_update))
      = [(0, "in_roi", 60)]) ∧
    ((runScenario scnEf 70).1.hands = []) ∧
    ((runScenario scnEf 70).1.violations = []) ∧
    ((runScenario scnHf 72).1.hands.map
        (fun p => (p.1, p.2.state, p.2.frames_since_update))
      = [(0, "tracking_to_pizza", 61)]) ∧
    ((runScenario scnHf 131).1.hands.map
        (fun p => (p.1, p.2.state, p.2.frames_since_update))
      = [(0, "tracking_to_pizza", 120)]) ∧
    ((runScenario scnHf 132).1.hands = []) ∧
    ((runScenario scnHf 132).1.violations = []) ∧
    ((runScenario scnBf 21).1.hands.map (fun p => (p.1, p.2.state))
      = [(0, "done")]) ∧
    ((runScenario scnBf 21).1.pending_violations = []) ∧
    ((runScenario scnBf 72).1.hands.map
        (fun p => (p.1, p.2.state, p.2.frames_since_update))
      = [(0, "done", 60)]) ∧
    ((runScenario scnBf 73).1.hands = []) ∧
    ((runScenario scnBf 73).1.pending_violations = []) := by
  constructor
  · intro matched hands pendings h hd hnd hm hum
    exact ⟨rfl, fun hle => HandTracker.evict_kept hnd hm hum hle,
           fun hgt => HandTracker.evict_gone hnd hm hum hgt⟩
  · decide

/-- C3 witness: the general eviction rule applied to a concrete unmatched
hand in state "in_roi" with counter 60: the incremented counter 61
exceeds the 60-frame timeout, so the hand is evicted and no pending
keyed 0 survives. -/
theorem C3_witness :
    0 ∉ HandTracker.keysOf (HandTracker.evict []
      [(0, (⟨hb10, "in_roi", 60, "Cheese"⟩ : HandData))] []).1 ∧
    ∀ q, (0, q) ∉ (HandTracker.evict []
      [(0, (⟨hb10, "in_roi", 60, "Cheese"⟩ : HandData))] []).2 :=
  (C3_amended_thm.1 [] [(0, ⟨hb10, "in_roi", 60, "Cheese"⟩)] [] 0
    ⟨hb10, "in_roi", 60, "Cheese"⟩ (by decide) (by decide)
    (by decide)).2.2 (by decide)

set_option maxRecDepth 8000 in
/-- C10: RESOLVED ("done") is not terminal. For a single live Hand in
state "done", being matched in a later frame (box_iou above threshold)
with its box center inside some region resets it to "in_roi"
(NEW_IN_REGION) with that region recorded; and in the concrete run the
same hand id 0 traverses the lifecycle twice, committing a violation at
frame 21, re-entering the region at 22, and committing a second violation
at frame 33. -/
theorem C10_thm :
    (∀ (s : TrackerState) (h : Nat) (hd : HandData) (b : Box)
       (scooper_boxes pizza_boxes : List Box) (frame_num : Nat) (roi : Roi),
       s.hands = [(h, hd)] → hd.state = "done" →
       box_iou b hd.box > IOU_THRESHOLD →
       HandTracker.findRoi s.rois b = some roi →
       (∀ q, (h, q) ∉ s.pending_violations) →
       (HandTracker.update s [b] scooper_boxes pizza_boxes
           frame_num).1.hands
         = [(h, (⟨b, "in_roi", 0, roi.name⟩ : HandData))]) ∧
    ((runScenario scnFf 21).2
      = [{ frame := 21, hand_id := 0, roi_name := "Cheese" }]) ∧
    ((runScenario scnFf 21).1.hands.map (fun p => (p.1, p.2.state))
      = [(0, "done")]) ∧
    ((runScenario scnFf 22).1.hands.map (fun p => (p.1, p.2.state))
      = [(0, "in_roi")]) ∧
    ((runScenario scnFf 33).1.violations
      = [{ frame := 21, hand_id := 0, roi_name := "Cheese" },
         { frame := 33, hand_id := 0, roi_name := "Cheese" }]) := by
  constructor
  · intro s h hd b scooper_boxes pizza_boxes frame_num roi hh hst hiou
      hroi hnp
    have hfm2 : HandTracker.findMatch [(h, hd)] [] b = some (h, hd) := by
      unfold HandTracker.findMatch
      apply List.find?_cons_of_pos
      dsimp only
      rw [decide_eq_true hiou]
      rfl
    have hstep : HandTracker.step_matched s.rois pizza_boxes frame_num h hd
        b s.pending_violations
        = ((⟨b, "in_roi", 0, roi.name⟩ : HandData), s.pending_violations) := by
      simp only [HandTracker.step_matched, hroi]
    have hpm : HandTracker.postMatch s [b] pizza_boxes frame_num
        = ([(h, (⟨b, "in_roi", 0, roi.name⟩ : HandData))],
           s.pending_violations, [h], []) := by
      unfold HandTracker.postMatch
      rw [hh]
      simp only [HandTracker.matchLoop]
      rw [hfm2]
      dsimp only
      rw [hstep]
      simp only [HandTracker.matchLoop, List.map_cons, List.map_nil,
        beq_self_eq_true, if_pos]
      rfl
    have harb : (HandTracker.arbitrate
        (HandTracker.recentScoopers s scooper_boxes) frame_num
        s.pending_violations
        [(h, (⟨b, "in_roi", 0, roi.name⟩ : HandData))]).2.1
        = [(h, (⟨b, "in_roi", 0, roi.name⟩ : HandData))] := by
      apply HandTracker.arbitrate_hands_of_disjoint
      intro kq hkq p hp hcontra
      rw [List.mem_singleton] at hp
      apply hnp kq.2
      rw [← show kq.1 = h from by rw [← hcontra, hp]]
      exact hkq
    have hev : ∀ (hd2 : HandData) (ps : List (Nat × Pending)),
        (HandTracker.evict [h] [(h, hd2)] ps).1 = [(h, hd2)] := by
      intro hd2 ps
      have hc : ([h] : List Nat).contains h = true :=
        HandTracker.contains_eq_true_of_mem (List.mem_singleton.mpr rfl)
      have hb2 : HandTracker.bumpUnmatched [h] (h, hd2) = (h, hd2) := by
        unfold HandTracker.bumpUnmatched
        rw [if_pos hc]
      have hlp : HandTracker.lostPred [h] (h, hd2) = false := by
        unfold HandTracker.lostPred
        dsimp only
        rw [hc]
        rfl
      have hlost : HandTracker.lostOf [h] [(h, hd2)] = [] := by
        unfold HandTracker.lostOf
        rw [List.map_cons, List.map_nil, hb2, List.filter_cons]
        rw [hlp]
        simp
      simp only [HandTracker.evict]
      rw [hlost, List.map_cons, List.map_nil, hb2, List.filter_cons]
      simp
    simp only [HandTracker.update]
    rw [hpm]
    dsimp only
    simp only [HandTracker.addNewHands]
    rw [harb]
    exact hev _ _
  · decide

/-- C10 witness: a session state holding one hand (id 0) in state "done"
is matched by hb10 (box_iou 8/25 with its stored box hb11) whose center
lies in the Cheese region: the update resets it to "in_roi". -/
theorem C10_witness :
    (HandTracker.update
        (⟨1, [(0, (⟨hb11, "done", 0, "Cheese"⟩ : HandData))], [],
          [cheeseRoi], [], []⟩ : TrackerState)
        [hb10] [] [] 22).1.hands
      = [(0, (⟨hb10, "in_roi", 0, cheeseRoi.name⟩ : HandData))] :=
  C10_thm.1
    (⟨1, [(0, (⟨hb11, "done", 0, "Cheese"⟩ : HandData))], [],
      [cheeseRoi], [], []⟩ : TrackerState)
    0 ⟨hb11, "done", 0, "Cheese"⟩ hb10 [] [] 22 cheeseRoi
    rfl rfl (by decide) (by decide) (fun q hq => absurd hq (List.not_mem_nil _))

namespace HandTracker

lemma box_iou_eq_zero_of_dim {box1 box2 : Box}
    (h : min box1.x2 box2.x2 - max box1.x1 box2.x1 ≤ 0 ∨
         min box1.y2 box2.y2 - max box1.y1 box2.y1 ≤ 0) :
    box_iou box1 box2 = 0 := by
  have hinter : max 0 (min box1.x2 box2.x2 - max box1.x1 box2.x1)
      * max 0 (min box1.y2 box2.y2 - max box1.y1 box2.y1) = 0 := by
    rcases h with h1 | h1
    · rw [max_eq_left h1, zero_mul]
    · rw [max_eq_left h1, mul_zero]
  simp only [box_iou]
  rw [hinter]
  split
  · rw [Int.cast_zero, zero_div]
  · rfl

lemma box_iou_mem_unit {box1 box2 : Box}
    (h1 : box1.x1 < box1.x2) (h2 : box1.y1 < box1.y2)
    (h3 : box2.x1 < box2.x2) (h4 : box2.y1 < box2.y2) :
    0 ≤ box_iou box1 box2 ∧ box_iou box1 box2 ≤ 1 := by
  have hiw1 : max 0 (min box1.x2 box2.x2 - max box1.x1 box2.x1)
      ≤ box1.x2 - box1.x1 := by omega
  have hih1 : max 0 (min box1.y2 box2.y2 - max box1.y1 box2.y1)
      ≤ box1.y2 - box1.y1 := by omega
  have hiw2 : max 0 (min box1.x2 box2.x2 - max box1.x1 box2.x1)
      ≤ box2.x2 - box2.x1 := by omega
  have hih2 : max 0 (min box1.y2 box2.y2 - max box1.y1 box2.y1)
      ≤ box2.y2 - box2.y1 := by omega
  have hiwnn : (0 : Int)
      ≤ max 0 (min box1.x2 box2.x2 - max box1.x1 box2.x1) :=
    le_max_left 0 _
  have hihnn : (0 : Int)
      ≤ max 0 (min box1.y2 box2.y2 - max box1.y1 box2.y1) :=
    le_max_left 0 _
  have hint1 : max 0 (min box1.x2 box2.x2 - max box1.x1 box2.x1)
        * max 0 (min box1.y2 box2.y2 - max box1.y1 box2.y1)
      ≤ (box1.x2 - box1.x1) * (box1.y2 - box1.y1) :=
    mul_le_mul hiw1 hih1 hihnn (by omega)
  have hint2 : max 0 (min box1.x2 box2.x2 - max box1.x1 box2.x1)
        * max 0 (min box1.y2 box2.y2 - max box1.y1 box2.y1)
      ≤ (box2.x2 - box2.x1) * (box2.y2 - box2.y1) :=
    mul_le_mul hiw2 hih2 hihnn (by omega)
  have hintnn : (0 : Int)
      ≤ max 0 (min box1.x2 box2.x2 - max box1.x1 box2.x1)
        * max 0 (min box1.y2 box2.y2 - max box1.y1 box2.y1) :=
    mul_nonneg hiwnn hihnn
  have ha1pos : (0 : Int)
      < (box1.x2 - box1.x1) * (box1.y2 - box1.y1) :=
    mul_pos (by omega) (by omega)
  have hupos : (0 : Int)
      < (box1.x2 - box1.x1) * (box1.y2 - box1.y1)
        + (box2.x2 - box2.x1) * (box2.y2 - box2.y1)
        - max 0 (min box1.x2 box2.x2 - max box1.x1 box2.x1)
          * max 0 (min box1.y2 box2.y2 - max box1.y1 box2.y1) := by
    omega
  have hle : max 0 (min box1.x2 box2.x2 - max box1.x1 box2.x1)
        * max 0 (min box1.y2 box2.y2 - max box1.y1 box2.y1)
      ≤ (box1.x2 - box1.x1) * (box1.y2 - box1.y1)
        + (box2.x2 - box2.x1) * (box2.y2 - box2.y1)
        - max 0 (min box1.x2 box2.x2 - max box1.x1 box2.x1)
          * max 0 (min box1.y2 box2.y2 - max box1.y1 box2.y1) := by
    omega
  simp only [box_iou]
  rw [if_pos hupos]
  constructor
  · apply div_nonneg
    · exact_mod_cast hintnn
    · exact_mod_cast le_of_lt hupos
  · rw [div_le_one (by exact_mod_cast hupos)]
    exact_mod_cast hle

end HandTracker

/-- C8: for boxes with x1 < x2 and y1 < y2 on both sides, box_iou lies in
[0, 1]; it is 0 whenever the boxes do not intersect (an intersection
dimension is empty) or either box has non-positive area; and the division
is guarded: a non-positive union area yields 0, never a division by
zero. -/
theorem C8_thm (box1 box2 : Box) :
    (box1.x1 < box1.x2 → box1.y1 < box1.y2 → box2.x1 < box2.x2 →
      box2.y1 < box2.y2 →
      0 ≤ box_iou box1 box2 ∧ box_iou box1 box2 ≤ 1) ∧
    (min box1.x2 box2.x2 ≤ max box1.x1 box2.x1 ∨
     min box1.y2 box2.y2 ≤ max box1.y1 box2.y1 →
      box_iou box1 box2 = 0) ∧
    ((box1.x2 - box1.x1) * (box1.y2 - box1.y1) ≤ 0 ∨
     (box2.x2 - box2.x1) * (box2.y2 - box2.y1) ≤ 0 →
      box_iou box1 box2 = 0) ∧
    ((box1.x2 - box1.x1) * (box1.y2 - box1.y1)
       + (box2.x2 - box2.x1) * (box2.y2 - box2.y1)
       - max 0 (min box1.x2 box2.x2 - max box1.x1 box2.x1)
         * max 0 (min box1.y2 box2.y2 - max box1.y1 box2.y1) ≤ 0 →
      box_iou box1 box2 = 0) := by
  refine ⟨fun h1 h2 h3 h4 => HandTracker.box_iou_mem_unit h1 h2 h3 h4,
    ?_, ?_, ?_⟩
  · intro h
    apply HandTracker.box_iou_eq_zero_of_dim
    rcases h with h | h
    · left
      omega
    · right
      omega
  · intro h
    apply HandTracker.box_iou_eq_zero_of_dim
    rcases h with h | h
    · rcases (show box1.x2 - box1.x1 ≤ 0 ∨ box1.y2 - box1.y1 ≤ 0 by
        by_contra hc
        push_neg at hc
        exact absurd (mul_pos hc.1 hc.2) (not_lt.mpr h)) with hw | hh
      · left
        omega
      · right
        omega
    · rcases (show box2.x2 - box2.x1 ≤ 0 ∨ box2.y2 - box2.y1 ≤ 0 by
        by_contra hc
        push_neg at hc
        exact absurd (mul_pos hc.1 hc.2) (not_lt.mpr h)) with hw | hh
      · left
        omega
      · right
        omega
  · intro h
    simp only [box_iou]
    rw [if_neg (by omega)]

/-- C8 witness: the bounds at the overlapping proper boxes hb10 and hb11,
and the zero cases at a disjoint pair, a zero-width box, and a pair of
totally degenerate boxes (union area 0, exercising the division guard). -/
theorem C8_witness :
    (0 ≤ box_iou hb10 hb11 ∧ box_iou hb10 hb11 ≤ 1) ∧
    box_iou hb10 (⟨1000, 1000, 1100, 1100⟩ : Box) = 0 ∧
    box_iou (⟨0, 0, 0, 5⟩ : Box) hb10 = 0 ∧
    box_iou (⟨0, 0, 0, 0⟩ : Box) (⟨0, 0, 0, 0⟩ : Box) = 0 :=
  ⟨(C8_thm hb10 hb11).1 (by decide) (by decide) (by decide) (by decide),
   (C8_thm hb10 ⟨1000, 1000, 1100, 1100⟩).2.1 (by decide),
   (C8_thm ⟨0, 0, 0, 5⟩ hb10).2.2.1 (by decide),
   (C8_thm ⟨0, 0, 0, 0⟩ ⟨0, 0, 0, 0⟩).2.2.2 (by decide)⟩
